import Mathlib

/-!
Verification of the GitHub proxy/cache core of this repository
(`server.js`, with the browser-side validator from `script.js`).

Strings from the JavaScript source are modelled as lists of characters
(`Str`); JavaScript regular expressions are embedded as character-level
matchers; `fetch` is modelled as a pure function from the requested URL
to the upstream response; each Express handler becomes a pure function
from (cache state, current time, upstream behaviour, request parameters)
to (new cache state, HTTP response, number of upstream calls).
-/

set_option linter.unusedVariables false

abbrev Str : Type := List Char

def strL (s : String) : Str := s.data

/-- Character class of the repo regexes in both `server.js` and
`script.js`: `[A-Za-z0-9_.-]`. -/
def isRepoChar (c : Char) : Bool :=
  c.isAlpha || c.isDigit || c == '_' || c == '.' || c == '-'

/-- Model of `server.js` `parseRepoParam`: `if (!repo) return null;` then match
against `^([A-Za-z0-9_.-]+)\/([A-Za-z0-9_.-]+)$` and return
the string `owner/name` rebuilt from the two capture groups (which
equals the input).  Since the class excludes `/`, the first group is
exactly the maximal class-character run before the first `/`. -/
def parseRepoParam (repo : Option Str) : Option Str :=
  match repo with
  | none => none
  | some s =>
    if s.isEmpty then none
    else
      let owner := s.takeWhile isRepoChar
      match s.dropWhile isRepoChar with
      | '/' :: name =>
        if !owner.isEmpty && !name.isEmpty && name.all isRepoChar then
          some (owner ++ '/' :: name)
        else none
      | _ => none

/-- Check used in `script.js` after capture:
`repo.match(/^[a-zA-Z0-9_.-]+\/[a-zA-Z0-9_.-]+$/)`. -/
def isRepoShape (l : Str) : Bool :=
  let a := l.takeWhile isRepoChar
  match l.dropWhile isRepoChar with
  | '/' :: b => !a.isEmpty && !b.isEmpty && b.all isRepoChar
  | _ => false

/-- Does `l` start with the (concrete) pattern `p`?  The pattern is the
first, structurally-decreasing argument so that applications with a
concrete pattern reduce definitionally. -/
def startsWith : Str → Str → Bool
  | [], _ => true
  | _ :: _, [] => false
  | q :: ps, c :: cs => c == q && startsWith ps cs

/-- The path part of `script.js` pattern 1, `([^\/]+\/[^\/]+)\/?$`,
applied after the `https?:\/\/github\.com\/` prefix: the capture is
`a/b` where `a` is everything before the first slash, `b` the following
slash-free run, optionally followed by one final slash. -/
def pathCapture (r : Str) : Option Str :=
  let a := r.takeWhile (fun c => !(c == '/'))
  match r.dropWhile (fun c => !(c == '/')) with
  | '/' :: b =>
    if a.isEmpty then none
    else
      let b2 := b.takeWhile (fun c => !(c == '/'))
      match b.dropWhile (fun c => !(c == '/')) with
      | [] => if b2.isEmpty then none else some (a ++ '/' :: b2)
      | ['/'] => if b2.isEmpty then none else some (a ++ '/' :: b2)
      | _ => none
  | _ => none

/-- Model of `script.js` pattern 1: `^https?:\/\/github\.com\/([^\/]+\/[^\/]+)\/?$`. -/
def matchGhUrl (l : Str) : Option Str :=
  if startsWith (strL "https://") l then
    if startsWith (strL "github.com/") (l.drop 8) then
      pathCapture ((l.drop 8).drop 11)
    else none
  else if startsWith (strL "http://") l then
    if startsWith (strL "github.com/") (l.drop 7) then
      pathCapture ((l.drop 7).drop 11)
    else none
  else none

/-- Model of `script.js` pattern 2: `^([^\/]+\/[^\/]+)$` (capture = whole input). -/
def matchBare (l : Str) : Option Str :=
  let a := l.takeWhile (fun c => !(c == '/'))
  match l.dropWhile (fun c => !(c == '/')) with
  | '/' :: b =>
    if a.isEmpty then none
    else if b.isEmpty then none
    else if b.all (fun c => !(c == '/')) then some l else none
  | _ => none

/-- Does the string end in `.git` (the `\.git$` test of
`repo.replace(/\.git$/, '')`)? -/
def endsWithGit (l : Str) : Bool :=
  decide (4 ≤ l.length) && decide (l.drop (l.length - 4) = strL ".git")

def stripGitSuffix (l : Str) : Str :=
  if endsWithGit l then l.take (l.length - 4) else l

/-- Body of the `for (const pattern of patterns)` loop in
`extractRepoFromUrl`: on a successful match, strip a final `.git` and
accept only if the result has the `owner/name` shape; otherwise fall
through to the next pattern. -/
def checkCapture : Option Str → Option Str
  | some cap =>
    let repo := stripGitSuffix cap
    if isRepoShape repo then some repo else none
  | none => none

/-- Model of `script.js` `extractRepoFromUrl`. -/
def extractRepoFromUrl (url : Str) : Option Str :=
  match checkCapture (matchGhUrl url) with
  | some r => some r
  | none => checkCapture (matchBare url)

/-- JSON values (the payloads exchanged with the GitHub API). -/
inductive Json where
  | null : Json
  | bool : Bool → Json
  | num : Int → Json
  | str : Str → Json
  | arr : List Json → Json
  | obj : List (Str × Json) → Json

def lookupField : List (Str × Json) → Str → Option Json
  | [], _ => none
  | (k', v) :: rest, k => if k' = k then some v else lookupField rest k

/-- Message of the `TypeError` thrown when reading a property of
`null` (the real message also names the property being read). -/
def nullReadMsg : Str := strL "Cannot read properties of null"

/-- JavaScript property access `item.f` on a JSON value: reading a
property of `null` throws a `TypeError`; any other value is an object
or autoboxes (numbers, strings, booleans), yielding the field value,
or `undefined` (modelled as `none`) when the field is absent. -/
def jsonField (j : Json) (k : Str) : Except Str (Option Json) :=
  match j with
  | .null => .error nullReadMsg
  | .obj fs => .ok (lookupField fs k)
  | _ => .ok none

/-- JavaScript truthiness of a JSON value (an absent field, i.e.
`undefined`, is falsy). -/
def jsTruthy : Option Json → Bool
  | none => false
  | some .null => false
  | some (.bool b) => b
  | some (.num n) => !(n == 0)
  | some (.str s) => !s.isEmpty
  | some (.arr _) => true
  | some (.obj _) => true

def hasField (j : Json) (k : Str) : Bool :=
  match j with
  | .obj fs => fs.any (fun f => f.1 == k)
  | _ => false

/-- Decimal digit rendering used by JavaScript template literals. -/
def digitChar : Nat → Char
  | 0 => '0' | 1 => '1' | 2 => '2' | 3 => '3' | 4 => '4'
  | 5 => '5' | 6 => '6' | 7 => '7' | 8 => '8' | 9 => '9'
  | _ => '*'

/-- Decimal rendering of a natural number. -/
def natToDigits (n : Nat) : Str :=
  if h : n < 10 then [digitChar n]
  else natToDigits (n / 10) ++ [digitChar (n % 10)]
decreasing_by exact Nat.div_lt_self (by omega) (by omega)

/-- Decimal rendering of a JavaScript integer as interpolated by
a template literal (`-` sign followed by the digits for negatives). -/
def intRepr (n : Int) : Str :=
  if n < 0 then '-' :: natToDigits n.natAbs else natToDigits n.toNat

def isJsSpace (c : Char) : Bool :=
  c == ' ' || c == '\t' || c == '\n' || c == '\r' ||
  c == Char.ofNat 11 || c == Char.ofNat 12

def digitsToNat (digits : Str) : Nat :=
  digits.foldl (fun a c => a * 10 + (c.toNat - '0'.toNat)) 0

/-- JavaScript `parseInt(s, 10)`: skip leading whitespace, read an
optional sign and then the maximal run of decimal digits; `NaN`
(modelled as `none`) when that run is empty. -/
def jsParseInt (s : Str) : Option Int :=
  let t := s.dropWhile isJsSpace
  let signAndRest : Int × Str :=
    match t with
    | '-' :: r => (-1, r)
    | '+' :: r => (1, r)
    | r => (1, r)
  let digits := (signAndRest.2).takeWhile Char.isDigit
  if digits.isEmpty then none
  else some (signAndRest.1 * (digitsToNat digits : Int))

/-- JavaScript truthiness of the `number` variable in the item
handlers (`if (!number)`): `parseInt` gave a nonzero number. -/
def numberTruthy : Option Int → Bool
  | none => false
  | some n => !(n == 0)

/-! ## Upstream client (`ghFetch`) -/

/-- An HTTP response as observed through the `fetch` API: status,
the two rate-limit headers, and the body (as text and as parsed JSON). -/
structure UpstreamResponse where
  status : Nat
  remaining : Option Str
  reset : Option Str
  bodyText : Str
  bodyJson : Json

/-- Result of one `fetch` call: an HTTP response, or a network-level
failure (a rejected promise carrying only a message, no `.status`). -/
inductive UpstreamResult where
  | resp : UpstreamResponse → UpstreamResult
  | networkFailure : Str → UpstreamResult

/-- The upstream (GitHub) behaviour: what `fetch` yields per URL. -/
def UpstreamBehavior : Type := Str → UpstreamResult

/-- Result of `ghFetch`: parsed JSON on success, or a thrown error
carrying an optional `.status` property and a message. -/
inductive FetchOutcome where
  | ok : Json → FetchOutcome
  | err : Option Nat → Str → FetchOutcome

/-- Model of `Response.ok`: status in the 200–299 range. -/
def respOk (status : Nat) : Bool :=
  decide (200 ≤ status) && decide (status ≤ 299)

def optHeaderStr : Option Str → Str
  | none => strL "null"
  | some s => s

/-- Message of the error thrown on 403:
`GitHub rate limit exceeded. Remaining=${remaining}. Reset=${resetDate}`
(the `Date` rendering of the reset header is abstracted to the raw
header text; `null` prints as `null`). -/
def rateLimitMsg (remaining reset : Option Str) : Str :=
  strL "GitHub rate limit exceeded. Remaining=" ++ optHeaderStr remaining ++
    strL ". Reset=" ++ optHeaderStr reset

/-- Message of the error thrown on other non-2xx statuses:
`GitHub API error: ${res.status} ${text}`. -/
def apiErrMsg (status : Nat) (bodyText : Str) : Str :=
  strL "GitHub API error: " ++ natToDigits status ++ strL " " ++ bodyText

/-- Model of `server.js` `ghFetch`: any 403 throws an error with `.status = 429`
(the remaining header is only interpolated into the message, never
tested); any other non-ok status throws with `.status = res.status`;
otherwise the parsed JSON body is returned.  A network failure is the
rejection of `fetch` itself: an error with no `.status`. -/
def ghFetch (upstream : UpstreamBehavior) (url : Str) : FetchOutcome :=
  match upstream url with
  | .networkFailure msg => .err none msg
  | .resp r =>
    if r.status = 403 then
      .err (some 429) (rateLimitMsg r.remaining r.reset)
    else if respOk r.status then
      .ok r.bodyJson
    else
      .err (some r.status) (apiErrMsg r.status r.bodyText)

/-- Model of `e.status || 500` in the catch blocks (`undefined` and `0` are
falsy). -/
def statusOr500 : Option Nat → Nat
  | none => 500
  | some s => if s = 0 then 500 else s

/-! ## Cache -/

/-- A cache entry: `{ data, ts }`. -/
structure CacheEntry where
  data : Json
  ts : Int

/-- The module-level `cache` object: key → entry. -/
def Cache : Type := Str → Option CacheEntry

/-- Source constant `TTL_MS = 60 * 1000`. -/
def TTL_MS : Int := 60 * 1000

/-- Model of `isFresh(entry)`: the entry exists and
`(Date.now() - entry.ts) < TTL_MS` (strict). -/
def isFresh (entry : Option CacheEntry) (now : Int) : Bool :=
  match entry with
  | none => false
  | some e => decide (now - e.ts < TTL_MS)

/-- The cache read performed at the top of every handler:
`if (isFresh(cache[key])) return res.json(cache[key].data)`. -/
def cacheRead (cache : Cache) (key : Str) (now : Int) : Option Json :=
  if isFresh (cache key) now then (cache key).map CacheEntry.data else none

/-- Model of the write `cache[key] = entry`. -/
def cacheUpdate (cache : Cache) (key : Str) (e : CacheEntry) : Cache :=
  fun k => if k = key then some e else cache k

/-! ## Handlers -/

structure HttpResponse where
  status : Nat
  body : Json

/-- Observable effect of one handler run: the cache afterwards, the
HTTP response, and how many upstream calls were made. -/
structure HandlerResult where
  cache : Cache
  response : HttpResponse
  upstreamCalls : Nat

/-- Error body `{ error: msg }`. -/
def errBody (msg : Str) : Json :=
  Json.obj [(strL "error", Json.str msg)]

/-- The shared tail of all four handlers: serve a fresh cached entry,
else fetch; a successful fetch runs the handler-specific
post-processing step (`Except.ok` for three handlers, the
PR-filtering for the issues list, whose JavaScript `filter` call
throws a `TypeError` on a non-array body), stores and serves the
result; a thrown error becomes `res.status(e.status || 500)` with
a `{ error: e.message }` body. -/
def serveCached (cache : Cache) (now : Int) (key : Str)
    (fetched : FetchOutcome) (post : Json → Except Str Json) : HandlerResult :=
  match cacheRead cache key now with
  | some data => ⟨cache, ⟨200, data⟩, 0⟩
  | none =>
    match fetched with
    | .ok raw =>
      match post raw with
      | .ok data => ⟨cacheUpdate cache key ⟨data, now⟩, ⟨200, data⟩, 1⟩
      | .error msg => ⟨cache, ⟨500, errBody msg⟩, 1⟩
    | .err st msg => ⟨cache, ⟨statusOr500 st, errBody msg⟩, 1⟩

def invalidRepoResult (cache : Cache) : HandlerResult :=
  ⟨cache, ⟨400, errBody (strL "Invalid repo format. Use owner/repo")⟩, 0⟩

def prsKey (repo : Str) : Str := strL "prs:" ++ repo

def prKey (repo : Str) (n : Int) : Str :=
  strL "pr:" ++ repo ++ ':' :: intRepr n

def issuesKey (repo : Str) : Str := strL "issues:" ++ repo

def issueKey (repo : Str) (n : Int) : Str :=
  strL "issue:" ++ repo ++ ':' :: intRepr n

def prsListUrl (repo : Str) : Str :=
  strL "https://api.github.com/repos/" ++ repo ++ strL "/pulls?state=all&per_page=30"

def prItemUrl (repo : Str) (n : Int) : Str :=
  strL "https://api.github.com/repos/" ++ repo ++ strL "/pulls/" ++ intRepr n

def issuesListUrl (repo : Str) : Str :=
  strL "https://api.github.com/repos/" ++ repo ++ strL "/issues?state=all&per_page=30"

def issueItemUrl (repo : Str) (n : Int) : Str :=
  strL "https://api.github.com/repos/" ++ repo ++ strL "/issues/" ++ intRepr n

/-- Model of the filter callback `item => !item.pull_request`: throws
(propagating the `TypeError`) when the element is `null`. -/
def keepIssue (item : Json) : Except Str Bool :=
  match jsonField item (strL "pull_request") with
  | .error msg => .error msg
  | .ok v => .ok (!(jsTruthy v))

/-- Model of `Array.prototype.filter` with a callback that may throw:
elements are visited in order and the first thrown error aborts the
whole call. -/
def jsFilter (p : Json → Except Str Bool) : List Json → Except Str (List Json)
  | [] => .ok []
  | x :: xs =>
    match p x with
    | .error msg => .error msg
    | .ok b =>
      match jsFilter p xs with
      | .error msg => .error msg
      | .ok rest => .ok (if b then x :: rest else rest)

/-- Model of `all.filter(item => !item.pull_request)` — keeps the
entries whose `pull_request` property is falsy; a `null` element makes
the callback throw, and a non-array value makes the `filter` call
itself throw — either `TypeError` lands in the catch block (500,
nothing cached, no `.status` on the error). -/
def filterIssues : Json → Except Str Json
  | .arr items =>
    match jsFilter keepIssue items with
    | .error msg => .error msg
    | .ok kept => .ok (.arr kept)
  | _ => .error (strL "all.filter is not a function")

/-- Handler of `GET /api/prs`. -/
def handlePrsList (cache : Cache) (now : Int) (upstream : UpstreamBehavior)
    (repoQ : Option Str) : HandlerResult :=
  match parseRepoParam repoQ with
  | none => invalidRepoResult cache
  | some repo =>
    serveCached cache now (prsKey repo) (ghFetch upstream (prsListUrl repo)) Except.ok

/-- Handler of `GET /api/prs/:number`. -/
def handlePrItem (cache : Cache) (now : Int) (upstream : UpstreamBehavior)
    (repoQ : Option Str) (numParam : Str) : HandlerResult :=
  match parseRepoParam repoQ with
  | none => invalidRepoResult cache
  | some repo =>
    match jsParseInt numParam with
    | none => ⟨cache, ⟨400, errBody (strL "Invalid PR number")⟩, 0⟩
    | some n =>
      if n = 0 then ⟨cache, ⟨400, errBody (strL "Invalid PR number")⟩, 0⟩
      else serveCached cache now (prKey repo n) (ghFetch upstream (prItemUrl repo n)) Except.ok

/-- Handler of `GET /api/issues`. -/
def handleIssuesList (cache : Cache) (now : Int) (upstream : UpstreamBehavior)
    (repoQ : Option Str) : HandlerResult :=
  match parseRepoParam repoQ with
  | none => invalidRepoResult cache
  | some repo =>
    serveCached cache now (issuesKey repo) (ghFetch upstream (issuesListUrl repo)) filterIssues

/-- Handler of `GET /api/issues/:number`. -/
def handleIssueItem (cache : Cache) (now : Int) (upstream : UpstreamBehavior)
    (repoQ : Option Str) (numParam : Str) : HandlerResult :=
  match parseRepoParam repoQ with
  | none => invalidRepoResult cache
  | some repo =>
    match jsParseInt numParam with
    | none => ⟨cache, ⟨400, errBody (strL "Invalid issue number")⟩, 0⟩
    | some n =>
      if n = 0 then ⟨cache, ⟨400, errBody (strL "Invalid issue number")⟩, 0⟩
      else serveCached cache now (issueKey repo n) (ghFetch upstream (issueItemUrl repo n)) Except.ok

/-- One request to any of the four endpoints. -/
inductive ApiRequest where
  | prsList : Option Str → ApiRequest
  | prItem : Option Str → Str → ApiRequest
  | issuesList : Option Str → ApiRequest
  | issueItem : Option Str → Str → ApiRequest

def dispatch (req : ApiRequest) (cache : Cache) (now : Int)
    (upstream : UpstreamBehavior) : HandlerResult :=
  match req with
  | .prsList q => handlePrsList cache now upstream q
  | .prItem q np => handlePrItem cache now upstream q np
  | .issuesList q => handleIssuesList cache now upstream q
  | .issueItem q np => handleIssueItem cache now upstream q np

/-- The cache key a request would read and (at most) write, when its
parameters validate. -/
def requestKey : ApiRequest → Option Str
  | .prsList q => (parseRepoParam q).map prsKey
  | .prItem q np =>
    match parseRepoParam q, jsParseInt np with
    | some repo, some n => if n = 0 then none else some (prKey repo n)
    | _, _ => none
  | .issuesList q => (parseRepoParam q).map issuesKey
  | .issueItem q np =>
    match parseRepoParam q, jsParseInt np with
    | some repo, some n => if n = 0 then none else some (issueKey repo n)
    | _, _ => none

/-- The upstream URL a request would fetch on a cache miss, when its
parameters validate. -/
def requestUrl : ApiRequest → Option Str
  | .prsList q => (parseRepoParam q).map prsListUrl
  | .prItem q np =>
    match parseRepoParam q, jsParseInt np with
    | some repo, some n => if n = 0 then none else some (prItemUrl repo n)
    | _, _ => none
  | .issuesList q => (parseRepoParam q).map issuesListUrl
  | .issueItem q np =>
    match parseRepoParam q, jsParseInt np with
    | some repo, some n => if n = 0 then none else some (issueItemUrl repo n)
    | _, _ => none

/-! ## The cache-key data model of the specification -/

/-- The spec's `CacheKey` inputs: resource kind and shape, a validated
repo identifier, and the item number where the shape requires one. -/
inductive CacheKeySpec where
  | prsList : Str → CacheKeySpec
  | prItem : Str → Int → CacheKeySpec
  | issuesList : Str → CacheKeySpec
  | issueItem : Str → Int → CacheKeySpec

def specRepo : CacheKeySpec → Str
  | .prsList r => r
  | .prItem r _ => r
  | .issuesList r => r
  | .issueItem r _ => r

/-- The key string each handler computes for those inputs. -/
def cacheKeyOf : CacheKeySpec → Str
  | .prsList r => prsKey r
  | .prItem r n => prKey r n
  | .issuesList r => issuesKey r
  | .issueItem r n => issueKey r n

/-- A repo identifier as validated by the server (`parseRepoParam`
accepts it). -/
def validRepo (r : Str) : Bool :=
  (parseRepoParam (some r)).isSome

/-! ## Helper lemmas on lists and characters -/

theorem takeWhile_append_of_all {α : Type} (p : α → Bool) (l1 l2 : List α)
    (h : l1.all p = true) : (l1 ++ l2).takeWhile p = l1 ++ l2.takeWhile p := by
  induction l1 with
  | nil => simp
  | cons a l ih =>
    simp only [List.all_cons, Bool.and_eq_true] at h
    simp [List.takeWhile_cons, h.1, ih h.2]

theorem dropWhile_append_of_all {α : Type} (p : α → Bool) (l1 l2 : List α)
    (h : l1.all p = true) : (l1 ++ l2).dropWhile p = l2.dropWhile p := by
  induction l1 with
  | nil => simp
  | cons a l ih =>
    simp only [List.all_cons, Bool.and_eq_true] at h
    simp [List.dropWhile_cons, h.1, ih h.2]

theorem takeWhile_eq_self_of_all {α : Type} (p : α → Bool) (l : List α)
    (h : l.all p = true) : l.takeWhile p = l := by
  have := takeWhile_append_of_all p l [] h
  simpa using this

theorem dropWhile_eq_nil_of_all {α : Type} (p : α → Bool) (l : List α)
    (h : l.all p = true) : l.dropWhile p = [] := by
  have := dropWhile_append_of_all p l [] h
  simpa using this

theorem takeWhile_cons_of_neg {α : Type} (p : α → Bool) (a : α) (l : List α)
    (h : p a = false) : (a :: l).takeWhile p = [] := by
  simp [List.takeWhile_cons, h]

theorem dropWhile_cons_of_neg {α : Type} (p : α → Bool) (a : α) (l : List α)
    (h : p a = false) : (a :: l).dropWhile p = a :: l := by
  simp [List.dropWhile_cons, h]

theorem isRepoChar_not_slash {c : Char} (h : isRepoChar c = true) :
    (c == '/') = false := by
  cases hc : c == '/'
  · rfl
  · exfalso
    have : c = '/' := by exact beq_iff_eq.mp hc
    subst this
    simp [isRepoChar] at h

theorem isRepoChar_slashfree {c : Char} (h : isRepoChar c = true) :
    (!(c == '/')) = true := by
  simp [isRepoChar_not_slash h]

theorem all_slashfree_of_all_repoChar (l : Str) (h : l.all isRepoChar = true) :
    l.all (fun c => !(c == '/')) = true := by
  rw [List.all_eq_true] at h ⊢
  intro c hc
  exact isRepoChar_slashfree (h c hc)

theorem isRepoChar_not_colon {c : Char} (h : isRepoChar c = true) : c ≠ ':' := by
  intro hc
  subst hc
  simp [isRepoChar] at h

theorem startsWith_mem (p l : Str) (h : startsWith p l = true) :
    ∀ c, c ∈ p → c ∈ l := by
  induction p generalizing l with
  | nil => intro c hc; simp at hc
  | cons a ps ih =>
    cases l with
    | nil => simp [startsWith] at h
    | cons b bs =>
      simp only [startsWith, Bool.and_eq_true, beq_iff_eq] at h
      intro c hc
      rcases List.mem_cons.mp hc with hca | hcp
      · subst hca; rw [← h.1]; exact List.mem_cons_self _ _
      · exact List.mem_cons_of_mem _ (ih bs h.2 c hcp)

theorem startsWith_false_of_not_mem (p l : Str) (c : Char)
    (hp : c ∈ p) (hl : c ∉ l) : startsWith p l = false := by
  cases h : startsWith p l
  · rfl
  · exact absurd (startsWith_mem p l h c hp) hl

/-- Splitting a string at a separator absent from both halves before it
is unambiguous. -/
theorem colon_split (p1 p2 r1 r2 : Str)
    (h1 : ':' ∉ p1) (h2 : ':' ∉ p2)
    (h : p1 ++ ':' :: r1 = p2 ++ ':' :: r2) : p1 = p2 ∧ r1 = r2 := by
  induction p1 generalizing p2 with
  | nil =>
    cases p2 with
    | nil => simpa using h
    | cons b bs =>
      exfalso
      simp only [List.nil_append, List.cons_append, List.cons.injEq] at h
      exact h2 (h.1 ▸ List.mem_cons_self _ _)
  | cons a as ih =>
    cases p2 with
    | nil =>
      exfalso
      simp only [List.nil_append, List.cons_append, List.cons.injEq] at h
      exact h1 (h.1.symm ▸ List.mem_cons_self _ _)
    | cons b bs =>
      simp only [List.cons_append, List.cons.injEq] at h
      have h1' : ':' ∉ as := fun hm => h1 (List.mem_cons_of_mem _ hm)
      have h2' : ':' ∉ bs := fun hm => h2 (List.mem_cons_of_mem _ hm)
      obtain ⟨he, ht⟩ := ih bs h1' h2' h.2
      exact ⟨by rw [h.1, he], ht⟩

theorem ne_nil_isEmpty_false {α : Type} {l : List α} (h : l ≠ []) :
    l.isEmpty = false := by
  cases l with
  | nil => exact absurd rfl h
  | cons a l => rfl

theorem takeWhile_all_self {α : Type} (p : α → Bool) (l : List α) :
    (l.takeWhile p).all p = true := by
  induction l with
  | nil => rfl
  | cons a l ih =>
    cases hp : p a
    · simp [List.takeWhile_cons, hp]
    · simp [List.takeWhile_cons, hp, ih]

/-! ## Validator lemmas -/

theorem parseRepoParam_accepts (owner name : Str) (ho : owner ≠ []) (hn : name ≠ [])
    (hoc : owner.all isRepoChar = true) (hnc : name.all isRepoChar = true) :
    parseRepoParam (some (owner ++ '/' :: name)) = some (owner ++ '/' :: name) := by
  have hisE : (owner ++ '/' :: name).isEmpty = false := by
    cases owner with
    | nil => exact absurd rfl ho
    | cons a l => rfl
  have htw : (owner ++ '/' :: name).takeWhile isRepoChar = owner := by
    rw [takeWhile_append_of_all _ _ _ hoc,
      takeWhile_cons_of_neg _ _ _ (by decide), List.append_nil]
  have hdw : (owner ++ '/' :: name).dropWhile isRepoChar = '/' :: name := by
    rw [dropWhile_append_of_all _ _ _ hoc,
      dropWhile_cons_of_neg _ _ _ (by decide)]
  simp only [parseRepoParam, hisE, Bool.false_eq_true, if_false, htw, hdw,
    ne_nil_isEmpty_false ho, ne_nil_isEmpty_false hn, hnc, Bool.not_false,
    Bool.and_self, if_true]

theorem parseRepoParam_sound (s r : Str) (h : parseRepoParam (some s) = some r) :
    ∃ owner name, owner ≠ [] ∧ name ≠ [] ∧ owner.all isRepoChar = true ∧
      name.all isRepoChar = true ∧ s = owner ++ '/' :: name ∧ r = s := by
  simp only [parseRepoParam] at h
  split at h
  · exact absurd h (by simp)
  · split at h
    next name heq =>
      split at h
      next hcond =>
        simp only [Option.some.injEq] at h
        simp only [Bool.and_eq_true, Bool.not_eq_true'] at hcond
        refine ⟨s.takeWhile isRepoChar, name, ?_, ?_, takeWhile_all_self _ _, hcond.2, ?_, ?_⟩
        · intro hnil
          rw [hnil] at hcond
          simp at hcond
        · intro hnil
          rw [hnil] at hcond
          simp at hcond
        · conv_lhs => rw [← List.takeWhile_append_dropWhile (p := isRepoChar) (l := s)]
          rw [heq]
        · rw [← h]
          conv_rhs => rw [← List.takeWhile_append_dropWhile (p := isRepoChar) (l := s)]
          rw [heq]
      · exact absurd h (by simp)
    next heq hne => exact absurd h (by simp)

theorem isRepoShape_bare (owner name : Str) (ho : owner ≠ []) (hn : name ≠ [])
    (hoc : owner.all isRepoChar = true) (hnc : name.all isRepoChar = true) :
    isRepoShape (owner ++ '/' :: name) = true := by
  have htw : (owner ++ '/' :: name).takeWhile isRepoChar = owner := by
    rw [takeWhile_append_of_all _ _ _ hoc,
      takeWhile_cons_of_neg _ _ _ (by decide), List.append_nil]
  have hdw : (owner ++ '/' :: name).dropWhile isRepoChar = '/' :: name := by
    rw [dropWhile_append_of_all _ _ _ hoc,
      dropWhile_cons_of_neg _ _ _ (by decide)]
  simp only [isRepoShape, htw, hdw, ne_nil_isEmpty_false ho, ne_nil_isEmpty_false hn,
    hnc, Bool.not_false, Bool.and_self]

theorem no_colon_bare (owner name : Str) (hoc : owner.all isRepoChar = true)
    (hnc : name.all isRepoChar = true) : ':' ∉ (owner ++ '/' :: name) := by
  intro hmem
  rcases List.mem_append.mp hmem with hmo | hmn
  · exact isRepoChar_not_colon (List.all_eq_true.mp hoc _ hmo) rfl
  · rcases List.mem_cons.mp hmn with hsl | hmn'
    · exact absurd hsl.symm (by decide)
    · exact isRepoChar_not_colon (List.all_eq_true.mp hnc _ hmn') rfl

theorem strL_https_gh : strL "https://github.com/" =
    ['h', 't', 't', 'p', 's', ':', '/', '/',
     'g', 'i', 't', 'h', 'u', 'b', '.', 'c', 'o', 'm', '/'] := by decide

theorem strL_http_gh : strL "http://github.com/" =
    ['h', 't', 't', 'p', ':', '/', '/',
     'g', 'i', 't', 'h', 'u', 'b', '.', 'c', 'o', 'm', '/'] := by decide

theorem strL_https : strL "https://" = ['h', 't', 't', 'p', 's', ':', '/', '/'] := by decide

theorem strL_http : strL "http://" = ['h', 't', 't', 'p', ':', '/', '/'] := by decide

theorem strL_ghcom : strL "github.com/" =
    ['g', 'i', 't', 'h', 'u', 'b', '.', 'c', 'o', 'm', '/'] := by decide

theorem matchGhUrl_https (r : Str) :
    matchGhUrl (strL "https://github.com/" ++ r) = pathCapture r := by
  rw [strL_https_gh]
  simp only [matchGhUrl, strL_https, strL_http, strL_ghcom]
  rfl

theorem matchGhUrl_http (r : Str) :
    matchGhUrl (strL "http://github.com/" ++ r) = pathCapture r := by
  rw [strL_http_gh]
  simp only [matchGhUrl, strL_https, strL_http, strL_ghcom]
  rfl

theorem matchGhUrl_no_colon (l : Str) (h : ':' ∉ l) : matchGhUrl l = none := by
  have h1 : startsWith (strL "https://") l = false :=
    startsWith_false_of_not_mem _ _ ':' (by decide) h
  have h2 : startsWith (strL "http://") l = false :=
    startsWith_false_of_not_mem _ _ ':' (by decide) h
  simp [matchGhUrl, h1, h2]

theorem pathCapture_exact (a b : Str) (ha : a ≠ []) (hb : b ≠ [])
    (has : a.all (fun c => !(c == '/')) = true)
    (hbs : b.all (fun c => !(c == '/')) = true) :
    pathCapture (a ++ '/' :: b) = some (a ++ '/' :: b) := by
  have htw : (a ++ '/' :: b).takeWhile (fun c => !(c == '/')) = a := by
    rw [takeWhile_append_of_all _ _ _ has,
      takeWhile_cons_of_neg _ _ _ (by decide), List.append_nil]
  have hdw : (a ++ '/' :: b).dropWhile (fun c => !(c == '/')) = '/' :: b := by
    rw [dropWhile_append_of_all _ _ _ has,
      dropWhile_cons_of_neg _ _ _ (by decide)]
  simp only [pathCapture, htw, hdw, ne_nil_isEmpty_false ha,
    Bool.false_eq_true, if_false, takeWhile_eq_self_of_all _ _ hbs,
    dropWhile_eq_nil_of_all _ _ hbs, ne_nil_isEmpty_false hb]

theorem pathCapture_slash (a b : Str) (ha : a ≠ []) (hb : b ≠ [])
    (has : a.all (fun c => !(c == '/')) = true)
    (hbs : b.all (fun c => !(c == '/')) = true) :
    pathCapture (a ++ '/' :: (b ++ ['/'])) = some (a ++ '/' :: b) := by
  have htw : (a ++ '/' :: (b ++ ['/'])).takeWhile (fun c => !(c == '/')) = a := by
    rw [takeWhile_append_of_all _ _ _ has,
      takeWhile_cons_of_neg _ _ _ (by decide), List.append_nil]
  have hdw : (a ++ '/' :: (b ++ ['/'])).dropWhile (fun c => !(c == '/')) = '/' :: (b ++ ['/']) := by
    rw [dropWhile_append_of_all _ _ _ has,
      dropWhile_cons_of_neg _ _ _ (by decide)]
  have htwb : (b ++ ['/']).takeWhile (fun c => !(c == '/')) = b := by
    rw [takeWhile_append_of_all _ _ _ hbs,
      takeWhile_cons_of_neg _ _ _ (by decide), List.append_nil]
  have hdwb : (b ++ ['/']).dropWhile (fun c => !(c == '/')) = ['/'] := by
    rw [dropWhile_append_of_all _ _ _ hbs,
      dropWhile_cons_of_neg _ _ _ (by decide)]
  simp only [pathCapture, htw, hdw, ne_nil_isEmpty_false ha,
    Bool.false_eq_true, if_false, htwb, hdwb, ne_nil_isEmpty_false hb]

theorem matchBare_bare (a b : Str) (ha : a ≠ []) (hb : b ≠ [])
    (has : a.all (fun c => !(c == '/')) = true)
    (hbs : b.all (fun c => !(c == '/')) = true) :
    matchBare (a ++ '/' :: b) = some (a ++ '/' :: b) := by
  have htw : (a ++ '/' :: b).takeWhile (fun c => !(c == '/')) = a := by
    rw [takeWhile_append_of_all _ _ _ has,
      takeWhile_cons_of_neg _ _ _ (by decide), List.append_nil]
  have hdw : (a ++ '/' :: b).dropWhile (fun c => !(c == '/')) = '/' :: b := by
    rw [dropWhile_append_of_all _ _ _ has,
      dropWhile_cons_of_neg _ _ _ (by decide)]
  simp only [matchBare, htw, hdw, ne_nil_isEmpty_false ha, ne_nil_isEmpty_false hb,
    Bool.false_eq_true, if_false, hbs, if_true]

theorem endsWithGit_append (l : Str) :
    endsWithGit (l ++ strL ".git") = true := by
  have hlen : (l ++ strL ".git").length = l.length + 4 := by
    simp [strL]
  have hdrop : (l ++ strL ".git").drop ((l ++ strL ".git").length - 4) = strL ".git" := by
    rw [hlen]
    have : l.length + 4 - 4 = l.length := by omega
    rw [this]
    exact List.drop_left l (strL ".git")
  simp only [endsWithGit, hdrop, hlen]
  simp

theorem stripGitSuffix_append (l : Str) :
    stripGitSuffix (l ++ strL ".git") = l := by
  have hlen : (l ++ strL ".git").length = l.length + 4 := by
    simp [strL]
  simp only [stripGitSuffix, endsWithGit_append, if_true, hlen]
  have : l.length + 4 - 4 = l.length := by omega
  rw [this]
  exact List.take_left l (strL ".git")

theorem stripGitSuffix_of_not (l : Str) (h : endsWithGit l = false) :
    stripGitSuffix l = l := by
  simp [stripGitSuffix, h]

theorem checkCapture_sound (x : Option Str) (r : Str)
    (h : checkCapture x = some r) : isRepoShape r = true := by
  cases x with
  | none => exact absurd h (by simp [checkCapture])
  | some cap =>
    simp only [checkCapture] at h
    split at h
    next hs =>
      simp only [Option.some.injEq] at h
      rw [← h]
      exact hs
    next hs => exact absurd h (by simp)

theorem extractRepoFromUrl_sound (u r : Str)
    (h : extractRepoFromUrl u = some r) : isRepoShape r = true := by
  simp only [extractRepoFromUrl] at h
  split at h
  next r' heq =>
    simp only [Option.some.injEq] at h
    exact h ▸ checkCapture_sound _ _ heq
  next heq => exact checkCapture_sound _ _ h

/-- Claim C2, counterexample: the server-side Validator `parseRepoParam`
rejects the full-URL form outright (the claim states the Validator
accepts it), even though the browser-side `extractRepoFromUrl` accepts
the very same input. -/
theorem claim2_counterexample :
    parseRepoParam (some (strL "https://github.com/octocat/Hello-World")) = none ∧
    extractRepoFromUrl (strL "https://github.com/octocat/Hello-World") =
      some (strL "octocat/Hello-World") := by
  exact ⟨by decide, by decide⟩

/-- Claim C2 (amended): the browser-side validator `extractRepoFromUrl`
accepts both the full URL form — with `http` or `https` scheme,
optional trailing slash, optional `.git` suffix — and the bare
`owner/name` token, all yielding the identical repo identifier; the
server-side validator `parseRepoParam` accepts only the bare token and
rejects the URL form; both validators only ever produce strings of the
validated `owner/name` shape (characters in `[A-Za-z0-9_.-]`). -/
theorem claim2_validators :
    (∀ owner name : Str, owner ≠ [] → name ≠ [] →
      owner.all isRepoChar = true → name.all isRepoChar = true →
      endsWithGit (owner ++ '/' :: name) = false →
      parseRepoParam (some (owner ++ '/' :: name)) = some (owner ++ '/' :: name) ∧
      parseRepoParam (some (strL "https://github.com/" ++ (owner ++ '/' :: name))) = none ∧
      extractRepoFromUrl (strL "https://github.com/" ++ (owner ++ '/' :: name)) =
        some (owner ++ '/' :: name) ∧
      extractRepoFromUrl (strL "https://github.com/" ++ (owner ++ '/' :: (name ++ ['/']))) =
        some (owner ++ '/' :: name) ∧
      extractRepoFromUrl (strL "https://github.com/" ++ (owner ++ '/' :: (name ++ strL ".git"))) =
        some (owner ++ '/' :: name) ∧
      extractRepoFromUrl (strL "http://github.com/" ++ (owner ++ '/' :: name)) =
        some (owner ++ '/' :: name) ∧
      extractRepoFromUrl (owner ++ '/' :: name) = some (owner ++ '/' :: name)) ∧
    (∀ s r : Str, parseRepoParam (some s) = some r → r = s ∧ isRepoShape s = true) ∧
    (∀ u r : Str, extractRepoFromUrl u = some r → isRepoShape r = true) := by
  refine ⟨?_, ?_, extractRepoFromUrl_sound⟩
  case refine_2 =>
    intro s r h
    obtain ⟨o, n, ho, hn, hoc, hnc, hs, hr⟩ := parseRepoParam_sound s r h
    refine ⟨hr, ?_⟩
    rw [hs]
    exact isRepoShape_bare o n ho hn hoc hnc
  · intro owner name ho hn hoc hnc hgit
    have hosf : owner.all (fun c => !(c == '/')) = true :=
      all_slashfree_of_all_repoChar _ hoc
    have hnsf : name.all (fun c => !(c == '/')) = true :=
      all_slashfree_of_all_repoChar _ hnc
    have hshape : isRepoShape (owner ++ '/' :: name) = true :=
      isRepoShape_bare owner name ho hn hoc hnc
    have hstrip : stripGitSuffix (owner ++ '/' :: name) = owner ++ '/' :: name :=
      stripGitSuffix_of_not _ hgit
    have hcap : checkCapture (some (owner ++ '/' :: name)) = some (owner ++ '/' :: name) := by
      simp [checkCapture, hstrip, hshape]
    refine ⟨parseRepoParam_accepts owner name ho hn hoc hnc, ?_, ?_, ?_, ?_, ?_, ?_⟩
    · -- the URL form is rejected by the server: `parseRepoParam` stops
      -- at the first character outside the class (the `:` of the scheme)
      rw [strL_https_gh]
      rfl
    · rw [extractRepoFromUrl, matchGhUrl_https,
        pathCapture_exact owner name ho hn hosf hnsf, hcap]
    · rw [extractRepoFromUrl, matchGhUrl_https,
        pathCapture_slash owner name ho hn hosf hnsf, hcap]
    · have hb : name ++ strL ".git" ≠ [] := by
        cases name with
        | nil => exact absurd rfl hn
        | cons a l => simp
      have hbsf : (name ++ strL ".git").all (fun c => !(c == '/')) = true := by
        rw [List.all_append, hnsf]
        decide
      have hassoc : owner ++ '/' :: (name ++ strL ".git") =
          (owner ++ '/' :: name) ++ strL ".git" := by
        simp
      have e1 : stripGitSuffix (owner ++ '/' :: (name ++ strL ".git")) =
          owner ++ '/' :: name := by
        rw [hassoc]
        exact stripGitSuffix_append _
      have hcap2 : checkCapture (some (owner ++ '/' :: (name ++ strL ".git"))) =
          some (owner ++ '/' :: name) := by
        simp only [checkCapture, e1, hshape]
        rfl
      rw [extractRepoFromUrl, matchGhUrl_https,
        pathCapture_exact owner (name ++ strL ".git") ho hb hosf hbsf, hcap2]
    · rw [extractRepoFromUrl, matchGhUrl_http,
        pathCapture_exact owner name ho hn hosf hnsf, hcap]
    · have hnc' : ':' ∉ (owner ++ '/' :: name) := no_colon_bare owner name hoc hnc
      rw [extractRepoFromUrl, matchGhUrl_no_colon _ hnc',
        matchBare_bare owner name ho hn hosf hnsf]
      exact hcap

/-- Claim C2, witness: both validators on `octocat/Hello-World`. -/
theorem claim2_witness :
    parseRepoParam (some (strL "octocat" ++ '/' :: strL "Hello-World")) =
      some (strL "octocat" ++ '/' :: strL "Hello-World") ∧
    extractRepoFromUrl (strL "https://github.com/" ++ (strL "octocat" ++ '/' :: strL "Hello-World")) =
      some (strL "octocat" ++ '/' :: strL "Hello-World") :=
  have h := claim2_validators.1 (strL "octocat") (strL "Hello-World")
    (by decide) (by decide) (by decide) (by decide) (by decide)
  ⟨h.1, h.2.2.1⟩

/-- Claim C3, counterexample: an entry whose age is exactly the TTL
(60 000 ms) satisfies `now - storedAt ≤ TTL`, yet the cache read treats
it as absent — the code's freshness test is strict (`<`), not `≤`. -/
theorem claim3_counterexample :
    ((60000 : Int) - 0 ≤ TTL_MS) ∧
    cacheRead (fun _ => some ⟨Json.num 7, 0⟩) (strL "issues:a/b") 60000 = none := by
  exact ⟨by decide, rfl⟩

/-- Claim C3 (amended): with TTL_MS = 60 000, a cache read returns data
exactly when the key holds an entry strictly younger than the TTL
(`now - storedAt < TTL`); what is returned is always that entry's
stored payload, never anything stale, and an entry of age `≥ TTL`
behaves as absent. -/
theorem claim3_cache_ttl :
    (∀ (c : Cache) (k : Str) (now : Int) (d : Json),
      cacheRead c k now = some d →
      ∃ e, c k = some e ∧ d = e.data ∧ now - e.ts < TTL_MS) ∧
    (∀ (c : Cache) (k : Str) (now : Int) (e : CacheEntry),
      c k = some e → now - e.ts < TTL_MS → cacheRead c k now = some e.data) ∧
    (∀ (c : Cache) (k : Str) (now : Int) (e : CacheEntry),
      c k = some e → ¬(now - e.ts < TTL_MS) → cacheRead c k now = none) ∧
    TTL_MS = 60 * 1000 := by
  refine ⟨?_, ?_, ?_, rfl⟩
  · intro c k now d h
    unfold cacheRead isFresh at h
    cases hc : c k with
    | none => rw [hc] at h; simp at h
    | some e =>
      rw [hc] at h
      simp only [decide_eq_true_eq] at h
      by_cases hlt : now - e.ts < TTL_MS
      · rw [if_pos hlt, Option.map_some'] at h
        injection h with h'
        exact ⟨e, rfl, h'.symm, hlt⟩
      · rw [if_neg hlt] at h
        exact absurd h (by simp)
  · intro c k now e hc hlt
    unfold cacheRead isFresh
    rw [hc]
    simp [hlt]
  · intro c k now e hc hlt
    unfold cacheRead isFresh
    rw [hc]
    simp [hlt]

/-- Claim C3, witness: an entry one millisecond younger than the TTL is
served back verbatim. -/
theorem claim3_witness :
    cacheRead (fun _ => some ⟨Json.num 7, 0⟩) (strL "issues:a/b") 59999 = some (Json.num 7) :=
  claim3_cache_ttl.2.1 (fun _ => some ⟨Json.num 7, 0⟩) (strL "issues:a/b") 59999
    ⟨Json.num 7, 0⟩ rfl (by decide)

/-! ## Handler-level helper lemmas -/

theorem ghFetch_err_status (up : UpstreamBehavior) (url : Str) (st : Option Nat) (msg : Str)
    (h : ghFetch up url = .err st msg) : statusOr500 st ≠ 200 := by
  unfold ghFetch at h
  cases hu : up url with
  | networkFailure m =>
    rw [hu] at h
    simp only [FetchOutcome.err.injEq] at h
    rw [← h.1]
    decide
  | resp r =>
    rw [hu] at h
    by_cases h403 : r.status = 403
    · simp only [h403, if_true, FetchOutcome.err.injEq] at h
      rw [← h.1]
      decide
    · simp only [h403, if_false] at h
      by_cases hok : respOk r.status = true
      · rw [if_pos hok] at h
        exact absurd h (by simp)
      · rw [if_neg hok] at h
        simp only [FetchOutcome.err.injEq] at h
        rw [← h.1]
        unfold respOk at hok
        unfold statusOr500
        by_cases h0 : r.status = 0
        · simp [h0]
        · simp only [h0, if_false]
          intro h200
          rw [h200] at hok
          simp at hok

theorem serveCached_calls_le_one (c : Cache) (now : Int) (key : Str)
    (f : FetchOutcome) (post : Json → Except Str Json) :
    (serveCached c now key f post).upstreamCalls ≤ 1 := by
  cases hr : cacheRead c key now with
  | some d => simp [serveCached, hr]
  | none =>
    cases f with
    | ok raw =>
      cases hp : post raw with
      | ok d => simp [serveCached, hr, hp]
      | error msg => simp [serveCached, hr, hp]
    | err st msg => simp [serveCached, hr]

theorem serveCached_frame (c : Cache) (now : Int) (key : Str)
    (f : FetchOutcome) (post : Json → Except Str Json) (k : Str) (hk : k ≠ key) :
    (serveCached c now key f post).cache k = c k := by
  cases hr : cacheRead c key now with
  | some d => simp [serveCached, hr]
  | none =>
    cases f with
    | ok raw =>
      cases hp : post raw with
      | ok d => simp [serveCached, hr, hp, cacheUpdate, hk]
      | error msg => simp [serveCached, hr, hp]
    | err st msg => simp [serveCached, hr]

theorem serveCached_err_cache (c : Cache) (now : Int) (key : Str)
    (st : Option Nat) (msg : Str) (post : Json → Except Str Json) :
    (serveCached c now key (.err st msg) post).cache = c := by
  cases hr : cacheRead c key now with
  | some d => simp [serveCached, hr]
  | none => simp [serveCached, hr]

theorem serveCached_hit (c : Cache) (now : Int) (key : Str)
    (f : FetchOutcome) (post : Json → Except Str Json) (d : Json)
    (h : cacheRead c key now = some d) :
    serveCached c now key f post = ⟨c, ⟨200, d⟩, 0⟩ := by
  simp only [serveCached, h]

theorem serveCached_miss_ok (c : Cache) (now : Int) (key : Str)
    (raw d : Json) (post : Json → Except Str Json)
    (hmiss : cacheRead c key now = none) (hpost : post raw = .ok d) :
    serveCached c now key (.ok raw) post =
      ⟨cacheUpdate c key ⟨d, now⟩, ⟨200, d⟩, 1⟩ := by
  simp only [serveCached, hmiss, hpost]

theorem serveCached_miss_err (c : Cache) (now : Int) (key : Str)
    (st : Option Nat) (msg : Str) (post : Json → Except Str Json)
    (hmiss : cacheRead c key now = none) :
    serveCached c now key (.err st msg) post =
      ⟨c, ⟨statusOr500 st, errBody msg⟩, 1⟩ := by
  simp only [serveCached, hmiss]

theorem serveCached_status200 (c : Cache) (now : Int) (key : Str)
    (f : FetchOutcome) (post : Json → Except Str Json)
    (hf : ∀ st msg, f = .err st msg → statusOr500 st ≠ 200)
    (h : (serveCached c now key f post).response.status = 200) :
    (∃ d, cacheRead c key now = some d ∧
      serveCached c now key f post = ⟨c, ⟨200, d⟩, 0⟩) ∨
    (cacheRead c key now = none ∧ ∃ raw d, f = .ok raw ∧ post raw = .ok d ∧
      serveCached c now key f post =
        ⟨cacheUpdate c key ⟨d, now⟩, ⟨200, d⟩, 1⟩) := by
  cases hr : cacheRead c key now with
  | some d => exact Or.inl ⟨d, rfl, serveCached_hit c now key f post d hr⟩
  | none =>
    cases hfc : f with
    | ok raw =>
      cases hp : post raw with
      | ok d =>
        exact Or.inr ⟨rfl, raw, d, rfl, hp, serveCached_miss_ok c now key raw d post hr hp⟩
      | error msg =>
        exfalso
        rw [hfc] at h
        simp [serveCached, hr, hp] at h
    | err st msg =>
      exfalso
      rw [hfc] at h
      rw [serveCached_miss_err c now key st msg post hr] at h
      exact hf st msg hfc h

theorem cacheRead_update_fresh (c : Cache) (key : Str) (d : Json) (t now : Int)
    (h : now - t < TTL_MS) :
    cacheRead (cacheUpdate c key ⟨d, t⟩) key now = some d := by
  unfold cacheRead cacheUpdate isFresh
  simp [h]

theorem ghFetch_resp_403 (up : UpstreamBehavior) (url : Str) (r : UpstreamResponse)
    (hu : up url = .resp r) (h403 : r.status = 403) :
    ghFetch up url = .err (some 429) (rateLimitMsg r.remaining r.reset) := by
  unfold ghFetch
  rw [hu]
  dsimp only
  rw [if_pos h403]

theorem ghFetch_resp_err (up : UpstreamBehavior) (url : Str) (r : UpstreamResponse)
    (hu : up url = .resp r) (h403 : ¬(r.status = 403)) (hok : respOk r.status = false) :
    ghFetch up url = .err (some r.status) (apiErrMsg r.status r.bodyText) := by
  unfold ghFetch
  rw [hu]
  dsimp only
  rw [if_neg h403, hok]
  simp

theorem ghFetch_resp_ok (up : UpstreamBehavior) (url : Str) (r : UpstreamResponse)
    (hu : up url = .resp r) (hok : respOk r.status = true) :
    ghFetch up url = .ok r.bodyJson := by
  have h403 : ¬(r.status = 403) := by
    intro h
    rw [h] at hok
    simp [respOk] at hok
  unfold ghFetch
  rw [hu]
  dsimp only
  rw [if_neg h403, if_pos hok]

theorem ghFetch_network (up : UpstreamBehavior) (url : Str) (msg : Str)
    (hu : up url = .networkFailure msg) : ghFetch up url = .err none msg := by
  unfold ghFetch
  rw [hu]

theorem hasField_errBody_ne (msg k : Str) (h : (strL "error" == k) = false) :
    hasField (errBody msg) k = false := by
  simp [hasField, errBody, h]

theorem hasField_errBody_error (msg : Str) :
    hasField (errBody msg) (strL "error") = true := by
  simp [hasField, errBody]

/-- Claim C1, counterexample: a 403 with nonzero
`x-ratelimit-remaining` still produces HTTP 429 (the code never reads
the remaining header before classifying), and even the 403 with
remaining `0` produces a body with no `reset` field (the reset time is
only interpolated into the `error` message string). -/
theorem claim1_counterexample :
    (handlePrsList (fun _ => none) 0
      (fun _ => .resp ⟨403, some (strL "5"), some (strL "100"), [], Json.null⟩)
      (some (strL "a/b"))).response.status = 429 ∧
    hasField (handlePrsList (fun _ => none) 0
      (fun _ => .resp ⟨403, some (strL "0"), some (strL "100"), [], Json.null⟩)
      (some (strL "a/b"))).response.body (strL "reset") = false := by
  exact ⟨by decide, by decide⟩

/-- Claim C1 (amended): on a cache miss, every upstream 403 — whatever
the rate-limit-remaining header holds — is classified as rate-limited
and surfaces as HTTP 429 whose body is `{ error: message }` with no
separate `reset` field (the reset header only appears inside the
message text); every other non-2xx status is passed through unchanged
(status 0, impossible for a real response, would become 500); the cache
is not touched. -/
theorem claim1_rate_limit :
    ∀ (c : Cache) (now : Int) (up : UpstreamBehavior) (q : Option Str)
      (repo : Str) (r : UpstreamResponse),
      parseRepoParam q = some repo →
      cacheRead c (prsKey repo) now = none →
      up (prsListUrl repo) = .resp r →
      respOk r.status = false →
      (handlePrsList c now up q).response.status =
        (if r.status = 403 then 429 else if r.status = 0 then 500 else r.status) ∧
      hasField (handlePrsList c now up q).response.body (strL "reset") = false ∧
      hasField (handlePrsList c now up q).response.body (strL "error") = true ∧
      (handlePrsList c now up q).cache = c := by
  intro c now up q repo r hq hmiss hu hok
  have h1 : handlePrsList c now up q =
      serveCached c now (prsKey repo) (ghFetch up (prsListUrl repo)) Except.ok := by
    simp only [handlePrsList, hq]
  by_cases h403 : r.status = 403
  · rw [h1, ghFetch_resp_403 up (prsListUrl repo) r hu h403,
      serveCached_miss_err c now (prsKey repo) (some 429)
        (rateLimitMsg r.remaining r.reset) Except.ok hmiss]
    refine ⟨?_, ?_, ?_, rfl⟩
    · rw [if_pos h403]
      rfl
    · exact hasField_errBody_ne _ _ (by decide)
    · exact hasField_errBody_error _
  · rw [h1, ghFetch_resp_err up (prsListUrl repo) r hu h403 hok,
      serveCached_miss_err c now (prsKey repo) (some r.status)
        (apiErrMsg r.status r.bodyText) Except.ok hmiss]
    refine ⟨?_, ?_, ?_, rfl⟩
    · rw [if_neg h403]
      rfl
    · exact hasField_errBody_ne _ _ (by decide)
    · exact hasField_errBody_error _

/-- Claim C1, witness: the amended theorem applied to a concrete 403
response with remaining `0`. -/
theorem claim1_witness :
    (handlePrsList (fun _ => none) 0
      (fun _ => .resp ⟨403, some (strL "0"), some (strL "100"), [], Json.null⟩)
      (some (strL "a/b"))).response.status = 429 ∧
    hasField (handlePrsList (fun _ => none) 0
      (fun _ => .resp ⟨403, some (strL "0"), some (strL "100"), [], Json.null⟩)
      (some (strL "a/b"))).response.body (strL "reset") = false :=
  have h := claim1_rate_limit (fun _ => none) 0
    (fun _ => .resp ⟨403, some (strL "0"), some (strL "100"), [], Json.null⟩)
    (some (strL "a/b")) (strL "a/b")
    ⟨403, some (strL "0"), some (strL "100"), [], Json.null⟩
    (by decide) rfl rfl (by decide)
  ⟨h.1, h.2.1⟩

theorem serveCached_miss_calls (c : Cache) (now : Int) (key : Str)
    (f : FetchOutcome) (post : Json → Except Str Json)
    (hmiss : cacheRead c key now = none) :
    (serveCached c now key f post).upstreamCalls = 1 := by
  cases f with
  | ok raw =>
    cases hp : post raw with
    | ok d => simp [serveCached, hmiss, hp]
    | error msg => simp [serveCached, hmiss, hp]
  | err st msg => simp [serveCached, hmiss]

theorem cacheUpdate_self (c : Cache) (key : Str) (e : CacheEntry) :
    cacheUpdate c key e key = some e := by
  simp [cacheUpdate]

theorem handlePrsList_valid (c : Cache) (now : Int) (up : UpstreamBehavior)
    (q : Option Str) (repo : Str) (hq : parseRepoParam q = some repo) :
    handlePrsList c now up q =
      serveCached c now (prsKey repo) (ghFetch up (prsListUrl repo)) Except.ok := by
  simp only [handlePrsList, hq]

theorem handleIssuesList_valid (c : Cache) (now : Int) (up : UpstreamBehavior)
    (q : Option Str) (repo : Str) (hq : parseRepoParam q = some repo) :
    handleIssuesList c now up q =
      serveCached c now (issuesKey repo) (ghFetch up (issuesListUrl repo)) filterIssues := by
  simp only [handleIssuesList, hq]

theorem handlePrItem_valid (c : Cache) (now : Int) (up : UpstreamBehavior)
    (q : Option Str) (np : Str) (repo : Str) (n : Int)
    (hq : parseRepoParam q = some repo) (hn : jsParseInt np = some n)
    (hn0 : ¬(n = 0)) :
    handlePrItem c now up q np =
      serveCached c now (prKey repo n) (ghFetch up (prItemUrl repo n)) Except.ok := by
  simp only [handlePrItem, hq, hn, if_neg hn0]

theorem handleIssueItem_valid (c : Cache) (now : Int) (up : UpstreamBehavior)
    (q : Option Str) (np : Str) (repo : Str) (n : Int)
    (hq : parseRepoParam q = some repo) (hn : jsParseInt np = some n)
    (hn0 : ¬(n = 0)) :
    handleIssueItem c now up q np =
      serveCached c now (issueKey repo n) (ghFetch up (issueItemUrl repo n)) Except.ok := by
  simp only [handleIssueItem, hq, hn, if_neg hn0]

/-- Claim C4: only successes are cached — whenever the upstream
outcome for the request's URL is an error (404, 403/rate-limit, any
other status, or a network failure, i.e. anything `ghFetch` turns into
a thrown error), the cache mapping after the request is exactly the
cache mapping before it, on every key. -/
theorem claim4_errors_never_cached :
    ∀ (req : ApiRequest) (c : Cache) (now : Int) (up : UpstreamBehavior)
      (u : Str) (st : Option Nat) (msg : Str),
      requestUrl req = some u →
      ghFetch up u = .err st msg →
      (dispatch req c now up).cache = c := by
  intro req c now up u st msg hru hgf
  cases req with
  | prsList q =>
    simp only [requestUrl, Option.map_eq_some'] at hru
    obtain ⟨repo, hq, hu⟩ := hru
    subst hu
    rw [show dispatch (.prsList q) c now up = handlePrsList c now up q from rfl,
      handlePrsList_valid c now up q repo hq, hgf]
    exact serveCached_err_cache c now (prsKey repo) st msg Except.ok
  | issuesList q =>
    simp only [requestUrl, Option.map_eq_some'] at hru
    obtain ⟨repo, hq, hu⟩ := hru
    subst hu
    rw [show dispatch (.issuesList q) c now up = handleIssuesList c now up q from rfl,
      handleIssuesList_valid c now up q repo hq, hgf]
    exact serveCached_err_cache c now (issuesKey repo) st msg filterIssues
  | prItem q np =>
    cases hq : parseRepoParam q with
    | none => simp [requestUrl, hq] at hru
    | some repo =>
      cases hn : jsParseInt np with
      | none => simp [requestUrl, hq, hn] at hru
      | some n =>
        by_cases hn0 : n = 0
        · simp [requestUrl, hq, hn, hn0] at hru
        · have hu : prItemUrl repo n = u := by
            simp [requestUrl, hq, hn, hn0] at hru
            exact hru
          subst hu
          rw [show dispatch (.prItem q np) c now up = handlePrItem c now up q np from rfl,
            handlePrItem_valid c now up q np repo n hq hn hn0, hgf]
          exact serveCached_err_cache c now (prKey repo n) st msg Except.ok
  | issueItem q np =>
    cases hq : parseRepoParam q with
    | none => simp [requestUrl, hq] at hru
    | some repo =>
      cases hn : jsParseInt np with
      | none => simp [requestUrl, hq, hn] at hru
      | some n =>
        by_cases hn0 : n = 0
        · simp [requestUrl, hq, hn, hn0] at hru
        · have hu : issueItemUrl repo n = u := by
            simp [requestUrl, hq, hn, hn0] at hru
            exact hru
          subst hu
          rw [show dispatch (.issueItem q np) c now up = handleIssueItem c now up q np from rfl,
            handleIssueItem_valid c now up q np repo n hq hn hn0, hgf]
          exact serveCached_err_cache c now (issueKey repo n) st msg Except.ok

/-- Claim C4, witness: a 404 upstream response for a PR-list request
leaves a concrete (empty) cache untouched. -/
theorem claim4_witness :
    (dispatch (.prsList (some (strL "a/b"))) (fun _ => none) 0
      (fun _ => .resp ⟨404, none, none, strL "nf", Json.null⟩)).cache =
      (fun _ => none) :=
  claim4_errors_never_cached (.prsList (some (strL "a/b"))) (fun _ => none) 0
    (fun _ => .resp ⟨404, none, none, strL "nf", Json.null⟩)
    (prsListUrl (strL "a/b")) (some 404) (apiErrMsg 404 (strL "nf"))
    rfl
    (ghFetch_resp_err (fun _ => .resp ⟨404, none, none, strL "nf", Json.null⟩)
      (prsListUrl (strL "a/b")) ⟨404, none, none, strL "nf", Json.null⟩
      rfl (by decide) (by decide))

/-- Claim C9: each handler writes at most the single cache key computed
from its own request parameters; every other key keeps exactly the
entry (payload and timestamp) it had before the request. -/
theorem claim9_cache_frame :
    ∀ (req : ApiRequest) (c : Cache) (now : Int) (up : UpstreamBehavior) (k : Str),
      requestKey req ≠ some k →
      (dispatch req c now up).cache k = c k := by
  intro req c now up k hk
  cases req with
  | prsList q =>
    cases hq : parseRepoParam q with
    | none => simp [dispatch, handlePrsList, hq, invalidRepoResult]
    | some repo =>
      have hkk : k ≠ prsKey repo := by
        intro he
        exact hk (by rw [requestKey, hq, he]; rfl)
      rw [show dispatch (.prsList q) c now up = handlePrsList c now up q from rfl,
        handlePrsList_valid c now up q repo hq]
      exact serveCached_frame c now (prsKey repo) _ Except.ok k hkk
  | issuesList q =>
    cases hq : parseRepoParam q with
    | none => simp [dispatch, handleIssuesList, hq, invalidRepoResult]
    | some repo =>
      have hkk : k ≠ issuesKey repo := by
        intro he
        exact hk (by rw [requestKey, hq, he]; rfl)
      rw [show dispatch (.issuesList q) c now up = handleIssuesList c now up q from rfl,
        handleIssuesList_valid c now up q repo hq]
      exact serveCached_frame c now (issuesKey repo) _ filterIssues k hkk
  | prItem q np =>
    cases hq : parseRepoParam q with
    | none => simp [dispatch, handlePrItem, hq, invalidRepoResult]
    | some repo =>
      cases hn : jsParseInt np with
      | none => simp [dispatch, handlePrItem, hq, hn]
      | some n =>
        by_cases hn0 : n = 0
        · simp [dispatch, handlePrItem, hq, hn, hn0]
        · have hkk : k ≠ prKey repo n := by
            intro he
            refine hk ?_
            rw [requestKey, hq, hn, he]
            simp [hn0]
          rw [show dispatch (.prItem q np) c now up = handlePrItem c now up q np from rfl,
            handlePrItem_valid c now up q np repo n hq hn hn0]
          exact serveCached_frame c now (prKey repo n) _ Except.ok k hkk
  | issueItem q np =>
    cases hq : parseRepoParam q with
    | none => simp [dispatch, handleIssueItem, hq, invalidRepoResult]
    | some repo =>
      cases hn : jsParseInt np with
      | none => simp [dispatch, handleIssueItem, hq, hn]
      | some n =>
        by_cases hn0 : n = 0
        · simp [dispatch, handleIssueItem, hq, hn, hn0]
        · have hkk : k ≠ issueKey repo n := by
            intro he
            refine hk ?_
            rw [requestKey, hq, hn, he]
            simp [hn0]
          rw [show dispatch (.issueItem q np) c now up = handleIssueItem c now up q np from rfl,
            handleIssueItem_valid c now up q np repo n hq hn hn0]
          exact serveCached_frame c now (issueKey repo n) _ Except.ok k hkk

/-- Claim C9, witness: an issues-list request does not disturb an
unrelated PR-list key. -/
theorem claim9_witness :
    (dispatch (.issuesList (some (strL "a/b"))) (fun _ => none) 0
      (fun _ => .resp ⟨200, none, none, [], Json.arr []⟩)).cache (strL "prs:x/y") =
      (fun (_ : Str) => (none : Option CacheEntry)) (strL "prs:x/y") :=
  claim9_cache_frame (.issuesList (some (strL "a/b"))) (fun _ => none) 0
    (fun _ => .resp ⟨200, none, none, [], Json.arr []⟩) (strL "prs:x/y")
    (by decide)

/-- Claim C5, counterexample: an issues-list entry that carries the
`pull_request` field with value `null` does not "lack the field", yet
the handler keeps it (the filter tests JavaScript truthiness, not
presence), so the returned list is not exactly the entries lacking the
field. -/
theorem claim5_counterexample :
    (handleIssuesList (fun _ => none) 0
      (fun _ => .resp ⟨200, none, none, [],
        Json.arr [Json.obj [(strL "pull_request", Json.null), (strL "id", Json.num 1)],
                  Json.obj [(strL "number", Json.num 2)]]⟩)
      (some (strL "a/b"))).response.body =
      Json.arr [Json.obj [(strL "pull_request", Json.null), (strL "id", Json.num 1)],
                Json.obj [(strL "number", Json.num 2)]] ∧
    hasField (Json.obj [(strL "pull_request", Json.null), (strL "id", Json.num 1)])
      (strL "pull_request") = true := by
  exact ⟨rfl, by decide⟩

theorem serveCached_miss_posterr (c : Cache) (now : Int) (key : Str)
    (raw : Json) (post : Json → Except Str Json) (msg : Str)
    (hmiss : cacheRead c key now = none) (hpost : post raw = .error msg) :
    serveCached c now key (.ok raw) post = ⟨c, ⟨500, errBody msg⟩, 1⟩ := by
  simp only [serveCached, hmiss, hpost]

theorem keepIssue_ok_of_ne_null (j : Json) (h : j ≠ Json.null) :
    ∃ b, keepIssue j = .ok b := by
  cases j with
  | null => exact absurd rfl h
  | bool b => exact ⟨_, rfl⟩
  | num n => exact ⟨_, rfl⟩
  | str s => exact ⟨_, rfl⟩
  | arr xs => exact ⟨_, rfl⟩
  | obj fs => exact ⟨_, rfl⟩

theorem jsFilter_keep_ok (items : List Json) (h : ∀ j, j ∈ items → j ≠ Json.null) :
    ∃ kept, jsFilter keepIssue items = .ok kept ∧ kept.Sublist items ∧
      (∀ j, j ∈ kept ↔ j ∈ items ∧ keepIssue j = .ok true) := by
  induction items with
  | nil => exact ⟨[], rfl, List.Sublist.refl _, by simp⟩
  | cons x xs ih =>
    have hx : x ≠ Json.null := h x (List.mem_cons_self _ _)
    have hxs : ∀ j, j ∈ xs → j ≠ Json.null := fun j hj => h j (List.mem_cons_of_mem _ hj)
    obtain ⟨kept, hflt, hsub, hmem⟩ := ih hxs
    obtain ⟨b, hb⟩ := keepIssue_ok_of_ne_null x hx
    cases b with
    | true =>
      refine ⟨x :: kept, ?_, List.Sublist.cons₂ _ hsub, ?_⟩
      · simp [jsFilter, hb, hflt]
      · intro j
        simp only [List.mem_cons]
        constructor
        · rintro (hj | hj)
          · exact ⟨Or.inl hj, by rw [hj]; exact hb⟩
          · obtain ⟨h1, h2⟩ := (hmem j).mp hj
            exact ⟨Or.inr h1, h2⟩
        · rintro ⟨hj | hj, h2⟩
          · exact Or.inl hj
          · exact Or.inr ((hmem j).mpr ⟨hj, h2⟩)
    | false =>
      refine ⟨kept, ?_, List.Sublist.cons _ hsub, ?_⟩
      · simp [jsFilter, hb, hflt]
      · intro j
        constructor
        · intro hj
          obtain ⟨h1, h2⟩ := (hmem j).mp hj
          exact ⟨List.mem_cons_of_mem _ h1, h2⟩
        · rintro ⟨hj, h2⟩
          rcases List.mem_cons.mp hj with hjx | hjxs
          · exfalso
            rw [hjx, hb] at h2
            simp at h2
          · exact (hmem j).mpr ⟨hjxs, h2⟩

theorem keepIssue_true_iff (j : Json) :
    keepIssue j = .ok true ↔
      ∃ v, jsonField j (strL "pull_request") = .ok v ∧ jsTruthy v = false := by
  cases h : jsonField j (strL "pull_request") with
  | error msg => simp [keepIssue, h]
  | ok v => simp [keepIssue, h, Bool.not_eq_true']

theorem jsFilter_null_err (items : List Json) (h : Json.null ∈ items) :
    jsFilter keepIssue items = .error nullReadMsg := by
  induction items with
  | nil => simp at h
  | cons x xs ih =>
    by_cases hx : x = Json.null
    · subst hx
      rfl
    · have hmem : Json.null ∈ xs := by
        rcases List.mem_cons.mp h with h1 | h1
        · exact absurd h1.symm hx
        · exact h1
      obtain ⟨b, hb⟩ := keepIssue_ok_of_ne_null x hx
      simp [jsFilter, hb, ih hmem]

/-- Claim C5 (amended): on a cache miss with an upstream array
response whose elements are not `null`, the issues-list handler
returns (and caches) exactly the entries on which the filter callback
`item => !item.pull_request` yields true — entries whose
`pull_request` property is falsy (absent, or present with a falsy
value) are kept, entries with a truthy pull-request marker are removed
— in their original order; if some element is `null`, the callback's
property read throws a `TypeError`, and the handler responds 500 with
an error body, caching nothing. -/
theorem claim5_issue_filter :
    (∀ (c : Cache) (now : Int) (up : UpstreamBehavior) (q : Option Str) (repo : Str)
      (r : UpstreamResponse) (items : List Json),
      parseRepoParam q = some repo →
      cacheRead c (issuesKey repo) now = none →
      up (issuesListUrl repo) = .resp r →
      respOk r.status = true →
      r.bodyJson = .arr items →
      (∀ j, j ∈ items → j ≠ Json.null) →
      ∃ kept : List Json,
        (handleIssuesList c now up q).response = ⟨200, .arr kept⟩ ∧
        (handleIssuesList c now up q).cache (issuesKey repo) = some ⟨.arr kept, now⟩ ∧
        kept.Sublist items ∧
        (∀ j, j ∈ kept ↔ j ∈ items ∧
          ∃ v, jsonField j (strL "pull_request") = .ok v ∧ jsTruthy v = false)) ∧
    (∀ (c : Cache) (now : Int) (up : UpstreamBehavior) (q : Option Str) (repo : Str)
      (r : UpstreamResponse) (items : List Json),
      parseRepoParam q = some repo →
      cacheRead c (issuesKey repo) now = none →
      up (issuesListUrl repo) = .resp r →
      respOk r.status = true →
      r.bodyJson = .arr items →
      Json.null ∈ items →
      (handleIssuesList c now up q).response.status = 500 ∧
      hasField (handleIssuesList c now up q).response.body (strL "error") = true ∧
      (handleIssuesList c now up q).cache = c) := by
  constructor
  · intro c now up q repo r items hq hmiss hu hok harr hnonull
    have hfetch : ghFetch up (issuesListUrl repo) = .ok (Json.arr items) := by
      rw [ghFetch_resp_ok up (issuesListUrl repo) r hu hok, harr]
    obtain ⟨kept, hflt, hsub, hmem⟩ := jsFilter_keep_ok items hnonull
    have hpost : filterIssues (Json.arr items) = .ok (.arr kept) := by
      simp only [filterIssues, hflt]
    rw [handleIssuesList_valid c now up q repo hq, hfetch,
      serveCached_miss_ok c now (issuesKey repo) (Json.arr items) (.arr kept)
        filterIssues hmiss hpost]
    exact ⟨kept, rfl, cacheUpdate_self _ _ _, hsub,
      fun j => (hmem j).trans (and_congr_right fun _ => keepIssue_true_iff j)⟩
  · intro c now up q repo r items hq hmiss hu hok harr hnull
    have hfetch : ghFetch up (issuesListUrl repo) = .ok (Json.arr items) := by
      rw [ghFetch_resp_ok up (issuesListUrl repo) r hu hok, harr]
    have hpost : filterIssues (Json.arr items) = .error nullReadMsg := by
      simp only [filterIssues, jsFilter_null_err items hnull]
    rw [handleIssuesList_valid c now up q repo hq, hfetch,
      serveCached_miss_posterr c now (issuesKey repo) (Json.arr items)
        filterIssues nullReadMsg hmiss hpost]
    exact ⟨rfl, hasField_errBody_error _, rfl⟩

/-- Claim C5, witness: one entry with a (truthy) pull-request marker
and one without — only the non-PR entry survives, and is cached. -/
theorem claim5_witness :
    ∃ kept : List Json,
      (handleIssuesList (fun _ => none) 0
        (fun _ => .resp ⟨200, none, none, [],
          Json.arr [Json.obj [(strL "pull_request", Json.obj []), (strL "id", Json.num 1)],
                    Json.obj [(strL "number", Json.num 2)]]⟩)
        (some (strL "a/b"))).response = ⟨200, .arr kept⟩ ∧
      (handleIssuesList (fun _ => none) 0
        (fun _ => .resp ⟨200, none, none, [],
          Json.arr [Json.obj [(strL "pull_request", Json.obj []), (strL "id", Json.num 1)],
                    Json.obj [(strL "number", Json.num 2)]]⟩)
        (some (strL "a/b"))).cache (issuesKey (strL "a/b")) = some ⟨.arr kept, 0⟩ ∧
      kept.Sublist [Json.obj [(strL "pull_request", Json.obj []), (strL "id", Json.num 1)],
                    Json.obj [(strL "number", Json.num 2)]] ∧
      (∀ j, j ∈ kept ↔
        j ∈ [Json.obj [(strL "pull_request", Json.obj []), (strL "id", Json.num 1)],
             Json.obj [(strL "number", Json.num 2)]] ∧
        ∃ v, jsonField j (strL "pull_request") = .ok v ∧ jsTruthy v = false) :=
  claim5_issue_filter.1 (fun _ => none) 0
    (fun _ => .resp ⟨200, none, none, [],
      Json.arr [Json.obj [(strL "pull_request", Json.obj []), (strL "id", Json.num 1)],
                Json.obj [(strL "number", Json.num 2)]]⟩)
    (some (strL "a/b")) (strL "a/b")
    ⟨200, none, none, [],
      Json.arr [Json.obj [(strL "pull_request", Json.obj []), (strL "id", Json.num 1)],
                Json.obj [(strL "number", Json.num 2)]]⟩
    [Json.obj [(strL "pull_request", Json.obj []), (strL "id", Json.num 1)],
     Json.obj [(strL "number", Json.num 2)]]
    (by decide) rfl rfl (by decide) rfl
    (by
      intro j hj
      rcases List.mem_cons.mp hj with h1 | h1
      · rw [h1]
        simp
      · rcases List.mem_cons.mp h1 with h2 | h2
        · rw [h2]
          simp
        · simp at h2)

/-- Claim C6, counterexample: `-1` does not denote a positive integer,
yet `parseInt` yields the truthy value `-1`, so the handler does not
respond 400 — it performs the upstream call (responding 200 here). -/
theorem claim6_counterexample :
    (handlePrItem (fun _ => none) 0
      (fun _ => .resp ⟨200, none, none, [], Json.obj []⟩)
      (some (strL "a/b")) (strL "-1")).response.status = 200 ∧
    (handlePrItem (fun _ => none) 0
      (fun _ => .resp ⟨200, none, none, [], Json.obj []⟩)
      (some (strL "a/b")) (strL "-1")).upstreamCalls = 1 := by
  exact ⟨rfl, rfl⟩

/-- Claim C6 (amended): the item handlers respond 400 — with an
`error` body, no upstream call and no cache write — exactly when the
JavaScript `parseInt` of the number parameter is falsy (`NaN`, i.e.
non-numeric input such as `abc`, or `0`); a parameter parsing to any
nonzero integer, including a negative one, instead proceeds to the
cache/upstream stage (one upstream call on a cache miss). -/
theorem claim6_item_number_validation :
    (∀ (c : Cache) (now : Int) (up : UpstreamBehavior) (q : Option Str) (np : Str),
      numberTruthy (jsParseInt np) = false →
      ((handlePrItem c now up q np).response.status = 400 ∧
       (handlePrItem c now up q np).upstreamCalls = 0 ∧
       (handlePrItem c now up q np).cache = c ∧
       hasField (handlePrItem c now up q np).response.body (strL "error") = true) ∧
      ((handleIssueItem c now up q np).response.status = 400 ∧
       (handleIssueItem c now up q np).upstreamCalls = 0 ∧
       (handleIssueItem c now up q np).cache = c ∧
       hasField (handleIssueItem c now up q np).response.body (strL "error") = true)) ∧
    (∀ (c : Cache) (now : Int) (up : UpstreamBehavior) (q : Option Str) (np : Str)
       (repo : Str) (n : Int),
      parseRepoParam q = some repo → jsParseInt np = some n → ¬(n = 0) →
      (cacheRead c (prKey repo n) now = none →
        (handlePrItem c now up q np).upstreamCalls = 1) ∧
      (cacheRead c (issueKey repo n) now = none →
        (handleIssueItem c now up q np).upstreamCalls = 1)) := by
  constructor
  · intro c now up q np hfalsy
    have hnum : jsParseInt np = none ∨ jsParseInt np = some 0 := by
      cases hn : jsParseInt np with
      | none => exact Or.inl rfl
      | some n =>
        rw [hn] at hfalsy
        simp only [numberTruthy, Bool.not_eq_false', beq_iff_eq] at hfalsy
        exact Or.inr (by rw [hfalsy])
    constructor
    · cases hq : parseRepoParam q with
      | none =>
        refine ⟨?_, ?_, ?_, ?_⟩ <;>
          simp [handlePrItem, hq, invalidRepoResult, hasField_errBody_error]
      | some repo =>
        rcases hnum with hn | hn <;>
          refine ⟨?_, ?_, ?_, ?_⟩ <;>
            simp [handlePrItem, hq, hn, hasField_errBody_error]
    · cases hq : parseRepoParam q with
      | none =>
        refine ⟨?_, ?_, ?_, ?_⟩ <;>
          simp [handleIssueItem, hq, invalidRepoResult, hasField_errBody_error]
      | some repo =>
        rcases hnum with hn | hn <;>
          refine ⟨?_, ?_, ?_, ?_⟩ <;>
            simp [handleIssueItem, hq, hn, hasField_errBody_error]
  · intro c now up q np repo n hq hn hn0
    constructor
    · intro hmiss
      rw [handlePrItem_valid c now up q np repo n hq hn hn0]
      exact serveCached_miss_calls c now (prKey repo n) _ Except.ok hmiss
    · intro hmiss
      rw [handleIssueItem_valid c now up q np repo n hq hn hn0]
      exact serveCached_miss_calls c now (issueKey repo n) _ Except.ok hmiss

/-- Claim C6, witness: the non-numeric parameter `abc` is rejected with
400 and no upstream call. -/
theorem claim6_witness :
    (handlePrItem (fun _ => none) 0
      (fun _ => .resp ⟨200, none, none, [], Json.obj []⟩)
      (some (strL "a/b")) (strL "abc")).response.status = 400 ∧
    (handlePrItem (fun _ => none) 0
      (fun _ => .resp ⟨200, none, none, [], Json.obj []⟩)
      (some (strL "a/b")) (strL "abc")).upstreamCalls = 0 :=
  have h := (claim6_item_number_validation.1 (fun _ => none) 0
    (fun _ => .resp ⟨200, none, none, [], Json.obj []⟩)
    (some (strL "a/b")) (strL "abc") (by decide)).1
  ⟨h.1, h.2.1⟩

/-- Claim C10: the single-issue handler returns the upstream payload
verbatim with status 200 and caches that very payload — no
pull-request filtering of any kind is applied, so an item number that
upstream resolves to a pull-request object yields that object as the
issue response. -/
theorem claim10_issue_item_verbatim :
    ∀ (c : Cache) (now : Int) (up : UpstreamBehavior) (q : Option Str) (np : Str)
      (repo : Str) (n : Int) (r : UpstreamResponse),
      parseRepoParam q = some repo →
      jsParseInt np = some n → ¬(n = 0) →
      cacheRead c (issueKey repo n) now = none →
      up (issueItemUrl repo n) = .resp r →
      respOk r.status = true →
      (handleIssueItem c now up q np).response = ⟨200, r.bodyJson⟩ ∧
      (handleIssueItem c now up q np).cache (issueKey repo n) =
        some ⟨r.bodyJson, now⟩ := by
  intro c now up q np repo n r hq hn hn0 hmiss hu hok
  rw [handleIssueItem_valid c now up q np repo n hq hn hn0,
    ghFetch_resp_ok up (issueItemUrl repo n) r hu hok,
    serveCached_miss_ok c now (issueKey repo n) r.bodyJson r.bodyJson Except.ok hmiss rfl]
  exact ⟨rfl, cacheUpdate_self _ _ _⟩

/-- Claim C10, witness: a pull-request object (it carries the
`pull_request` marker) served by upstream for `/api/issues/7` is
returned and cached verbatim. -/
theorem claim10_witness :
    (handleIssueItem (fun _ => none) 0
      (fun _ => .resp ⟨200, none, none, [],
        Json.obj [(strL "pull_request", Json.obj []), (strL "number", Json.num 7)]⟩)
      (some (strL "a/b")) (strL "7")).response =
      ⟨200, Json.obj [(strL "pull_request", Json.obj []), (strL "number", Json.num 7)]⟩ ∧
    (handleIssueItem (fun _ => none) 0
      (fun _ => .resp ⟨200, none, none, [],
        Json.obj [(strL "pull_request", Json.obj []), (strL "number", Json.num 7)]⟩)
      (some (strL "a/b")) (strL "7")).cache (issueKey (strL "a/b") 7) =
      some ⟨Json.obj [(strL "pull_request", Json.obj []), (strL "number", Json.num 7)], 0⟩ :=
  claim10_issue_item_verbatim (fun _ => none) 0
    (fun _ => .resp ⟨200, none, none, [],
      Json.obj [(strL "pull_request", Json.obj []), (strL "number", Json.num 7)]⟩)
    (some (strL "a/b")) (strL "7") (strL "a/b") 7
    ⟨200, none, none, [],
      Json.obj [(strL "pull_request", Json.obj []), (strL "number", Json.num 7)]⟩
    (by decide) (by decide) (by decide) rfl rfl (by decide)

/-! ## Decimal rendering is injective (cache-key collision freedom) -/

theorem digitChar_inj (m n : Nat) (hm : m < 10) (hn : n < 10)
    (h : digitChar m = digitChar n) : m = n := by
  interval_cases m <;> interval_cases n <;>
    first | rfl | (exfalso; exact absurd h (by decide))

theorem natToDigits_eq (n : Nat) :
    natToDigits n =
      if n < 10 then [digitChar n] else natToDigits (n / 10) ++ [digitChar (n % 10)] := by
  rw [natToDigits]
  split <;> rfl

theorem natToDigits_ne_nil (n : Nat) : natToDigits n ≠ [] := by
  rw [natToDigits_eq]
  split
  · simp
  · simp

theorem natToDigits_inj (m : Nat) : ∀ n, natToDigits m = natToDigits n → m = n := by
  induction m using Nat.strong_induction_on with
  | _ m ih =>
    intro n h
    rw [natToDigits_eq m, natToDigits_eq n] at h
    by_cases hm : m < 10 <;> by_cases hn : n < 10
    · rw [if_pos hm, if_pos hn] at h
      injection h with h1 _
      exact digitChar_inj m n hm hn h1
    · rw [if_pos hm, if_neg hn] at h
      exfalso
      have hlen := congrArg List.length h
      cases hh : natToDigits (n / 10) with
      | nil => exact natToDigits_ne_nil _ hh
      | cons x xs =>
        rw [hh] at hlen
        simp at hlen
    · rw [if_neg hm, if_pos hn] at h
      exfalso
      have hlen := congrArg List.length h
      cases hh : natToDigits (m / 10) with
      | nil => exact natToDigits_ne_nil _ hh
      | cons x xs =>
        rw [hh] at hlen
        simp at hlen
    · rw [if_neg hm, if_neg hn] at h
      obtain ⟨h1, h2⟩ := List.append_inj' h rfl
      injection h2 with h2' _
      have hd : m % 10 = n % 10 :=
        digitChar_inj _ _ (Nat.mod_lt _ (by omega)) (Nat.mod_lt _ (by omega)) h2'
      have hq : m / 10 = n / 10 :=
        ih (m / 10) (Nat.div_lt_self (by omega) (by omega)) (n / 10) h1
      omega

theorem natToDigits_all_digit (m : Nat) :
    (natToDigits m).all Char.isDigit = true := by
  induction m using Nat.strong_induction_on with
  | _ m ih =>
    rw [natToDigits_eq]
    by_cases hm : m < 10
    · rw [if_pos hm]
      interval_cases m <;> decide
    · rw [if_neg hm]
      rw [List.all_append]
      have h1 := ih (m / 10) (Nat.div_lt_self (by omega) (by omega))
      rw [h1]
      have h2 : Char.isDigit (digitChar (m % 10)) = true := by
        have hlt : m % 10 < 10 := Nat.mod_lt _ (by omega)
        interval_cases hmm : (m % 10) <;> decide
      simp [h2]

theorem neg_head_not_digits (k : Nat) (xs : Str)
    (h : '-' :: xs = natToDigits k) : False := by
  cases hh : natToDigits k with
  | nil => exact natToDigits_ne_nil _ hh
  | cons y ys =>
    rw [hh] at h
    injection h with h1 _
    have hall := natToDigits_all_digit k
    rw [hh] at hall
    rw [List.all_cons] at hall
    rw [← h1] at hall
    simp at hall

theorem intRepr_inj (m n : Int) (h : intRepr m = intRepr n) : m = n := by
  unfold intRepr at h
  by_cases hm : m < 0 <;> by_cases hn : n < 0
  · rw [if_pos hm, if_pos hn] at h
    injection h with _ h2
    have := natToDigits_inj _ _ h2
    omega
  · rw [if_pos hm, if_neg hn] at h
    exact absurd h (fun hc => neg_head_not_digits _ _ hc)
  · rw [if_neg hm, if_pos hn] at h
    exact absurd h.symm (fun hc => neg_head_not_digits _ _ hc)
  · rw [if_neg hm, if_neg hn] at h
    have := natToDigits_inj _ _ h
    omega

theorem digits_no_colon (k : Nat) : ':' ∉ natToDigits k := by
  intro hmem
  have hall := natToDigits_all_digit k
  rw [List.all_eq_true] at hall
  have := hall _ hmem
  simp [Char.isDigit] at this

theorem intRepr_no_colon (n : Int) : ':' ∉ intRepr n := by
  unfold intRepr
  split
  · intro hmem
    rcases List.mem_cons.mp hmem with h1 | h2
    · exact absurd h1.symm (by decide)
    · exact digits_no_colon _ h2
  · exact digits_no_colon _

theorem validRepo_no_colon (r : Str) (h : validRepo r = true) : ':' ∉ r := by
  unfold validRepo at h
  rw [Option.isSome_iff_exists] at h
  obtain ⟨r2, hr2⟩ := h
  obtain ⟨owner, name, _, _, hoc, hnc, hs, _⟩ := parseRepoParam_sound r r2 hr2
  rw [hs]
  exact no_colon_bare owner name hoc hnc

theorem prsKey_eq (r : Str) : prsKey r = ['p', 'r', 's'] ++ ':' :: r := by
  rw [prsKey, show strL "prs:" = ['p', 'r', 's', ':'] from by decide]
  rfl

theorem issuesKey_eq (r : Str) : issuesKey r = ['i', 's', 's', 'u', 'e', 's'] ++ ':' :: r := by
  rw [issuesKey, show strL "issues:" = ['i', 's', 's', 'u', 'e', 's', ':'] from by decide]
  rfl

theorem prKey_eq (r : Str) (n : Int) :
    prKey r n = ['p', 'r'] ++ ':' :: (r ++ ':' :: intRepr n) := by
  rw [prKey, show strL "pr:" = ['p', 'r', ':'] from by decide]
  simp

theorem issueKey_eq (r : Str) (n : Int) :
    issueKey r n = ['i', 's', 's', 'u', 'e'] ++ ':' :: (r ++ ':' :: intRepr n) := by
  rw [issueKey, show strL "issue:" = ['i', 's', 's', 'u', 'e', ':'] from by decide]
  simp

/-- Claim C8: the cache-key construction is total (it is a function)
and collision-free — two triples of (resource kind and shape,
validated repo identifier, optional item number) that produce the same
key string are the same triple.  Validity of the repo (no `:` can occur
in a string accepted by `parseRepoParam`) is what makes the delimited
encoding unambiguous. -/
theorem claim8_cache_key_injective :
    ∀ s1 s2 : CacheKeySpec,
      validRepo (specRepo s1) = true → validRepo (specRepo s2) = true →
      cacheKeyOf s1 = cacheKeyOf s2 → s1 = s2 := by
  intro s1 s2 h1 h2 hk
  cases s1 with
  | prsList r1 =>
    simp only [specRepo] at h1
    cases s2 with
    | prsList r2 =>
      simp only [cacheKeyOf] at hk
      rw [prsKey_eq, prsKey_eq] at hk
      obtain ⟨_, hr⟩ := colon_split _ _ _ _ (by decide) (by decide) hk
      rw [hr]
    | prItem r2 n2 =>
      simp only [cacheKeyOf] at hk
      rw [prsKey_eq, prKey_eq] at hk
      obtain ⟨hp, _⟩ := colon_split _ _ _ _ (by decide) (by decide) hk
      exact absurd hp (by decide)
    | issuesList r2 =>
      simp only [cacheKeyOf] at hk
      rw [prsKey_eq, issuesKey_eq] at hk
      obtain ⟨hp, _⟩ := colon_split _ _ _ _ (by decide) (by decide) hk
      exact absurd hp (by decide)
    | issueItem r2 n2 =>
      simp only [cacheKeyOf] at hk
      rw [prsKey_eq, issueKey_eq] at hk
      obtain ⟨hp, _⟩ := colon_split _ _ _ _ (by decide) (by decide) hk
      exact absurd hp (by decide)
  | prItem r1 n1 =>
    simp only [specRepo] at h1
    cases s2 with
    | prsList r2 =>
      simp only [cacheKeyOf] at hk
      rw [prKey_eq, prsKey_eq] at hk
      obtain ⟨hp, _⟩ := colon_split _ _ _ _ (by decide) (by decide) hk
      exact absurd hp (by decide)
    | prItem r2 n2 =>
      simp only [specRepo] at h2
      simp only [cacheKeyOf] at hk
      rw [prKey_eq, prKey_eq] at hk
      obtain ⟨_, hr⟩ := colon_split _ _ _ _ (by decide) (by decide) hk
      obtain ⟨hrr, hnn⟩ := colon_split _ _ _ _
        (validRepo_no_colon _ h1) (validRepo_no_colon _ h2) hr
      rw [hrr, intRepr_inj _ _ hnn]
    | issuesList r2 =>
      simp only [cacheKeyOf] at hk
      rw [prKey_eq, issuesKey_eq] at hk
      obtain ⟨hp, _⟩ := colon_split _ _ _ _ (by decide) (by decide) hk
      exact absurd hp (by decide)
    | issueItem r2 n2 =>
      simp only [cacheKeyOf] at hk
      rw [prKey_eq, issueKey_eq] at hk
      obtain ⟨hp, _⟩ := colon_split _ _ _ _ (by decide) (by decide) hk
      exact absurd hp (by decide)
  | issuesList r1 =>
    simp only [specRepo] at h1
    cases s2 with
    | prsList r2 =>
      simp only [cacheKeyOf] at hk
      rw [issuesKey_eq, prsKey_eq] at hk
      obtain ⟨hp, _⟩ := colon_split _ _ _ _ (by decide) (by decide) hk
      exact absurd hp (by decide)
    | prItem r2 n2 =>
      simp only [cacheKeyOf] at hk
      rw [issuesKey_eq, prKey_eq] at hk
      obtain ⟨hp, _⟩ := colon_split _ _ _ _ (by decide) (by decide) hk
      exact absurd hp (by decide)
    | issuesList r2 =>
      simp only [cacheKeyOf] at hk
      rw [issuesKey_eq, issuesKey_eq] at hk
      obtain ⟨_, hr⟩ := colon_split _ _ _ _ (by decide) (by decide) hk
      rw [hr]
    | issueItem r2 n2 =>
      simp only [cacheKeyOf] at hk
      rw [issuesKey_eq, issueKey_eq] at hk
      obtain ⟨hp, _⟩ := colon_split _ _ _ _ (by decide) (by decide) hk
      exact absurd hp (by decide)
  | issueItem r1 n1 =>
    simp only [specRepo] at h1
    cases s2 with
    | prsList r2 =>
      simp only [cacheKeyOf] at hk
      rw [issueKey_eq, prsKey_eq] at hk
      obtain ⟨hp, _⟩ := colon_split _ _ _ _ (by decide) (by decide) hk
      exact absurd hp (by decide)
    | prItem r2 n2 =>
      simp only [cacheKeyOf] at hk
      rw [issueKey_eq, prKey_eq] at hk
      obtain ⟨hp, _⟩ := colon_split _ _ _ _ (by decide) (by decide) hk
      exact absurd hp (by decide)
    | issuesList r2 =>
      simp only [cacheKeyOf] at hk
      rw [issueKey_eq, issuesKey_eq] at hk
      obtain ⟨hp, _⟩ := colon_split _ _ _ _ (by decide) (by decide) hk
      exact absurd hp (by decide)
    | issueItem r2 n2 =>
      simp only [specRepo] at h2
      simp only [cacheKeyOf] at hk
      rw [issueKey_eq, issueKey_eq] at hk
      obtain ⟨_, hr⟩ := colon_split _ _ _ _ (by decide) (by decide) hk
      obtain ⟨hrr, hnn⟩ := colon_split _ _ _ _
        (validRepo_no_colon _ h1) (validRepo_no_colon _ h2) hr
      rw [hrr, intRepr_inj _ _ hnn]

/-- Claim C8, witness: two concrete distinct key inputs over the same
validated repo produce distinct key strings. -/
theorem claim8_witness :
    cacheKeyOf (.prsList (strL "a/b")) ≠ cacheKeyOf (.issuesList (strL "a/b")) :=
  fun h =>
    CacheKeySpec.noConfusion
      (claim8_cache_key_injective (.prsList (strL "a/b")) (.issuesList (strL "a/b"))
        (by decide) (by decide) h)

theorem cacheRead_none_of_not_fresh (c : Cache) (k : Str) (now : Int)
    (h : isFresh (c k) now = false) : cacheRead c k now = none := by
  unfold cacheRead
  rw [h]
  simp

theorem dispatch_reject (req : ApiRequest) (c : Cache) (now : Int) (up : UpstreamBehavior)
    (h : requestKey req = none) : (dispatch req c now up).response.status = 400 := by
  cases req with
  | prsList q =>
    cases hq : parseRepoParam q with
    | none => simp [dispatch, handlePrsList, hq, invalidRepoResult]
    | some repo =>
      rw [requestKey, hq] at h
      simp at h
  | issuesList q =>
    cases hq : parseRepoParam q with
    | none => simp [dispatch, handleIssuesList, hq, invalidRepoResult]
    | some repo =>
      rw [requestKey, hq] at h
      simp at h
  | prItem q np =>
    cases hq : parseRepoParam q with
    | none => simp [dispatch, handlePrItem, hq, invalidRepoResult]
    | some repo =>
      cases hn : jsParseInt np with
      | none => simp [dispatch, handlePrItem, hq, hn]
      | some n =>
        by_cases hn0 : n = 0
        · simp [dispatch, handlePrItem, hq, hn, hn0]
        · rw [requestKey, hq, hn] at h
          simp [hn0] at h
  | issueItem q np =>
    cases hq : parseRepoParam q with
    | none => simp [dispatch, handleIssueItem, hq, invalidRepoResult]
    | some repo =>
      cases hn : jsParseInt np with
      | none => simp [dispatch, handleIssueItem, hq, hn]
      | some n =>
        by_cases hn0 : n = 0
        · simp [dispatch, handleIssueItem, hq, hn, hn0]
        · rw [requestKey, hq, hn] at h
          simp [hn0] at h

theorem dispatch_serve (req : ApiRequest) (up : UpstreamBehavior) (k0 : Str)
    (h : requestKey req = some k0) :
    ∃ (url : Str) (post : Json → Except Str Json),
      ∀ (c : Cache) (now : Int),
        dispatch req c now up = serveCached c now k0 (ghFetch up url) post := by
  cases req with
  | prsList q =>
    cases hq : parseRepoParam q with
    | none =>
      rw [requestKey, hq] at h
      simp at h
    | some repo =>
      rw [requestKey, hq] at h
      simp only [Option.map_some', Option.some.injEq] at h
      subst h
      exact ⟨prsListUrl repo, Except.ok,
        fun c now => handlePrsList_valid c now up q repo hq⟩
  | issuesList q =>
    cases hq : parseRepoParam q with
    | none =>
      rw [requestKey, hq] at h
      simp at h
    | some repo =>
      rw [requestKey, hq] at h
      simp only [Option.map_some', Option.some.injEq] at h
      subst h
      exact ⟨issuesListUrl repo, filterIssues,
        fun c now => handleIssuesList_valid c now up q repo hq⟩
  | prItem q np =>
    cases hq : parseRepoParam q with
    | none =>
      rw [requestKey, hq] at h
      simp at h
    | some repo =>
      cases hn : jsParseInt np with
      | none =>
        rw [requestKey, hq, hn] at h
        simp at h
      | some n =>
        by_cases hn0 : n = 0
        · rw [requestKey, hq, hn] at h
          simp [hn0] at h
        · rw [requestKey, hq, hn] at h
          dsimp only at h
          rw [if_neg hn0] at h
          simp only [Option.some.injEq] at h
          subst h
          exact ⟨prItemUrl repo n, Except.ok,
            fun c now => handlePrItem_valid c now up q np repo n hq hn hn0⟩
  | issueItem q np =>
    cases hq : parseRepoParam q with
    | none =>
      rw [requestKey, hq] at h
      simp at h
    | some repo =>
      cases hn : jsParseInt np with
      | none =>
        rw [requestKey, hq, hn] at h
        simp at h
      | some n =>
        by_cases hn0 : n = 0
        · rw [requestKey, hq, hn] at h
          simp [hn0] at h
        · rw [requestKey, hq, hn] at h
          dsimp only at h
          rw [if_neg hn0] at h
          simp only [Option.some.injEq] at h
          subst h
          exact ⟨issueItemUrl repo n, Except.ok,
            fun c now => handleIssueItem_valid c now up q np repo n hq hn hn0⟩

theorem serveCached_pair_atmost (c : Cache) (now1 now2 : Int) (key : Str)
    (f : FetchOutcome) (post : Json → Except Str Json)
    (hf : ∀ st msg, f = .err st msg → statusOr500 st ≠ 200)
    (h200 : (serveCached c now1 key f post).response.status = 200)
    (hwin : now2 - now1 < TTL_MS) :
    (serveCached c now1 key f post).upstreamCalls +
      (serveCached (serveCached c now1 key f post).cache now2 key f post).upstreamCalls ≤ 1 := by
  rcases serveCached_status200 c now1 key f post hf h200 with
    ⟨d, hr, heq⟩ | ⟨hr, raw, d, hF, hp, heq⟩
  · rw [heq]
    dsimp only
    have h2 := serveCached_calls_le_one c now2 key f post
    omega
  · rw [heq]
    dsimp only
    rw [serveCached_hit (cacheUpdate c key ⟨d, now1⟩) now2 key f post d
      (cacheRead_update_fresh c key d now1 now2 hwin)]
    simp

theorem serveCached_pair_fresh (c : Cache) (now1 now2 : Int) (key : Str)
    (f : FetchOutcome) (post : Json → Except Str Json)
    (hf : ∀ st msg, f = .err st msg → statusOr500 st ≠ 200)
    (hmiss : cacheRead c key now1 = none)
    (h200 : (serveCached c now1 key f post).response.status = 200)
    (hwin : now2 - now1 < TTL_MS) :
    (serveCached c now1 key f post).upstreamCalls = 1 ∧
    (serveCached (serveCached c now1 key f post).cache now2 key f post).upstreamCalls = 0 ∧
    (serveCached (serveCached c now1 key f post).cache now2 key f post).response.status = 200 ∧
    (serveCached (serveCached c now1 key f post).cache now2 key f post).response.body =
      (serveCached c now1 key f post).response.body := by
  rcases serveCached_status200 c now1 key f post hf h200 with
    ⟨d, hr, heq⟩ | ⟨hr, raw, d, hF, hp, heq⟩
  · rw [hr] at hmiss
    exact absurd hmiss (by simp)
  · rw [heq]
    dsimp only
    rw [serveCached_hit (cacheUpdate c key ⟨d, now1⟩) now2 key f post d
      (cacheRead_update_fresh c key d now1 now2 hwin)]
    exact ⟨rfl, rfl, rfl, rfl⟩

/-- Claim C7, counterexample: the two requests land 1 ms apart (well
within the TTL window) and the first succeeds — but it is served from a
pre-existing cache entry that expires between the two requests, so the
second refetches from upstream and returns a different body. -/
theorem claim7_counterexample :
    ((60000 : Int) - 59999 < TTL_MS) ∧
    (dispatch (.prsList (some (strL "a/b")))
      (fun k => if k = prsKey (strL "a/b") then some ⟨Json.num 1, 0⟩ else none)
      59999 (fun _ => .resp ⟨200, none, none, [], Json.num 2⟩)).response.status = 200 ∧
    (dispatch (.prsList (some (strL "a/b")))
      (dispatch (.prsList (some (strL "a/b")))
        (fun k => if k = prsKey (strL "a/b") then some ⟨Json.num 1, 0⟩ else none)
        59999 (fun _ => .resp ⟨200, none, none, [], Json.num 2⟩)).cache
      60000 (fun _ => .resp ⟨200, none, none, [], Json.num 2⟩)).response.body ≠
    (dispatch (.prsList (some (strL "a/b")))
      (fun k => if k = prsKey (strL "a/b") then some ⟨Json.num 1, 0⟩ else none)
      59999 (fun _ => .resp ⟨200, none, none, [], Json.num 2⟩)).response.body := by
  refine ⟨by decide, rfl, ?_⟩
  have e2 : (dispatch (.prsList (some (strL "a/b")))
      (dispatch (.prsList (some (strL "a/b")))
        (fun k => if k = prsKey (strL "a/b") then some ⟨Json.num 1, 0⟩ else none)
        59999 (fun _ => .resp ⟨200, none, none, [], Json.num 2⟩)).cache
      60000 (fun _ => .resp ⟨200, none, none, [], Json.num 2⟩)).response.body = Json.num 2 := rfl
  have e1 : (dispatch (.prsList (some (strL "a/b")))
      (fun k => if k = prsKey (strL "a/b") then some ⟨Json.num 1, 0⟩ else none)
      59999 (fun _ => .resp ⟨200, none, none, [], Json.num 2⟩)).response.body = Json.num 1 := rfl
  rw [e1, e2]
  intro h
  injection h with h1
  exact absurd h1 (by decide)

/-- Claim C7 (amended): for two identical requests with the second
inside the TTL window of the first and the first responding 200, the
upstream client is invoked at most once across the two requests — for
every initial cache state; and when additionally the first request's
own cache read missed (key absent or stale at that moment), the first
request performs the single upstream call and the second is a cache
hit: zero further calls, status 200, and a response body identical to
the first.  (Only the byte-identical-bodies part needs the extra
proviso: a first request served from a pre-existing entry that expires
between the two requests makes the second refetch.) -/
theorem claim7_two_requests :
    (∀ (req : ApiRequest) (c0 : Cache) (up : UpstreamBehavior) (now1 now2 : Int),
      (dispatch req c0 now1 up).response.status = 200 →
      now2 - now1 < TTL_MS →
      (dispatch req c0 now1 up).upstreamCalls +
        (dispatch req (dispatch req c0 now1 up).cache now2 up).upstreamCalls ≤ 1) ∧
    (∀ (req : ApiRequest) (c0 : Cache) (up : UpstreamBehavior) (now1 now2 : Int)
       (k0 : Str),
      requestKey req = some k0 →
      isFresh (c0 k0) now1 = false →
      (dispatch req c0 now1 up).response.status = 200 →
      now2 - now1 < TTL_MS →
      (dispatch req c0 now1 up).upstreamCalls = 1 ∧
      (dispatch req (dispatch req c0 now1 up).cache now2 up).upstreamCalls = 0 ∧
      (dispatch req (dispatch req c0 now1 up).cache now2 up).response.status = 200 ∧
      (dispatch req (dispatch req c0 now1 up).cache now2 up).response.body =
        (dispatch req c0 now1 up).response.body) := by
  constructor
  · intro req c0 up now1 now2 h200 hwin
    cases hrk : requestKey req with
    | none =>
      rw [dispatch_reject req c0 now1 up hrk] at h200
      exact absurd h200 (by decide)
    | some k0 =>
      obtain ⟨url, post, hd⟩ := dispatch_serve req up k0 hrk
      rw [hd c0 now1] at h200
      rw [hd c0 now1, hd _ now2]
      exact serveCached_pair_atmost c0 now1 now2 k0 (ghFetch up url) post
        (ghFetch_err_status up url) h200 hwin
  · intro req c0 up now1 now2 k0 hrk hstale h200 hwin
    obtain ⟨url, post, hd⟩ := dispatch_serve req up k0 hrk
    rw [hd c0 now1] at h200
    rw [hd c0 now1, hd _ now2]
    exact serveCached_pair_fresh c0 now1 now2 k0 (ghFetch up url) post
      (ghFetch_err_status up url) (cacheRead_none_of_not_fresh c0 k0 now1 hstale)
      h200 hwin

/-- Claim C7, witness: starting from an empty cache, the first request
fetches once and the second, 1 ms later, is served from the cache with
the identical body and no upstream call. -/
theorem claim7_witness :
    (dispatch (.prsList (some (strL "a/b"))) (fun _ => none) 100
      (fun _ => .resp ⟨200, none, none, [], Json.num 2⟩)).upstreamCalls = 1 ∧
    (dispatch (.prsList (some (strL "a/b")))
      (dispatch (.prsList (some (strL "a/b"))) (fun _ => none) 100
        (fun _ => .resp ⟨200, none, none, [], Json.num 2⟩)).cache
      101 (fun _ => .resp ⟨200, none, none, [], Json.num 2⟩)).upstreamCalls = 0 ∧
    (dispatch (.prsList (some (strL "a/b")))
      (dispatch (.prsList (some (strL "a/b"))) (fun _ => none) 100
        (fun _ => .resp ⟨200, none, none, [], Json.num 2⟩)).cache
      101 (fun _ => .resp ⟨200, none, none, [], Json.num 2⟩)).response.status = 200 ∧
    (dispatch (.prsList (some (strL "a/b")))
      (dispatch (.prsList (some (strL "a/b"))) (fun _ => none) 100
        (fun _ => .resp ⟨200, none, none, [], Json.num 2⟩)).cache
      101 (fun _ => .resp ⟨200, none, none, [], Json.num 2⟩)).response.body =
    (dispatch (.prsList (some (strL "a/b"))) (fun _ => none) 100
      (fun _ => .resp ⟨200, none, none, [], Json.num 2⟩)).response.body :=
  claim7_two_requests.2 (.prsList (some (strL "a/b"))) (fun _ => none)
    (fun _ => .resp ⟨200, none, none, [], Json.num 2⟩) 100 101
    (prsKey (strL "a/b")) rfl rfl rfl (by decide)


